import Mathlib

/-!
Verification development for the activity-aggregation and timeline-layout core
of the traceback repository.

Shallow embedding conventions:
* Timestamps are modelled as `Int` milliseconds since the Unix epoch.  The
  source stores ISO-8601 strings and converts with `new Date(s).getTime()`;
  that conversion is a bijection between valid ISO strings and millisecond
  values, so the embedding works with the milliseconds directly.
* The JavaScript runtime's local timezone is modelled as an explicit parameter
  `tz : Int`, the offset in minutes to ADD to a UTC timestamp to obtain local
  wall-clock time (a fixed offset; daylight-saving shifts are outside the
  model).  Functions of the source that use local-time accessors
  (`setHours`, `getHours`, `getMinutes`) take `tz` as their first argument.
* `type_specific_data` is a JSON string in the source, parsed (and cast) by
  `parseGitEventData` / `parseBrowserEventData` / `parseCalendarEventData`.
  It is modelled as an already-parsed, correctly tagged payload
  (`Option TypeSpecificData`), `none` standing for an absent field or a JSON
  parse failure.
* JavaScript `Array.prototype.sort` with comparator `(a, b) => a - b` is a
  stable sort; it is modelled by a stable insertion sort (any two stable
  sorts with the same key agree, so the choice of algorithm is immaterial).
* JavaScript `Map` and `Set` iterate in insertion order; they are modelled by
  association lists that append new keys at the end.
-/

/-! ## Time utilities -/

/-- Milliseconds in one day. -/
def dayMs : Int := 86400000

/-- Day number (days since the Unix epoch, flooring) of a UTC millisecond
timestamp.  `toISOString` renders exactly this day. -/
def utcDayNumber (ms : Int) : Int := Int.fdiv ms dayMs

/-- Civil (proleptic Gregorian) date `(year, month, day)` of a day number
(days since 1970-01-01).  Standard days-to-civil algorithm. -/
def civilFromDays (z0 : Int) : Int × Int × Int :=
  let z := z0 + 719468
  let era := Int.fdiv z 146097
  let doe := z - era * 146097
  let yoe := Int.fdiv (doe - Int.fdiv doe 1460 + Int.fdiv doe 36524 - Int.fdiv doe 146096) 365
  let y := yoe + era * 400
  let doy := doe - (365 * yoe + Int.fdiv yoe 4 - Int.fdiv yoe 100)
  let mp := Int.fdiv (5 * doy + 2) 153
  let d := doy - Int.fdiv (153 * mp + 2) 5 + 1
  let m := if mp < 10 then mp + 3 else mp - 9
  (if m ≤ 2 then y + 1 else y, m, d)

/-- Zero-pad a nonnegative integer to two digits (month/day fields). -/
def pad2 (n : Int) : String :=
  if n < 10 then "0" ++ toString n else toString n

/-- Zero-pad a nonnegative integer to four digits (year field).  The source's
`toISOString` renders years 0000–9999 this way; the embedding only ever
evaluates it in that range. -/
def pad4 (n : Int) : String :=
  if n < 10 then "000" ++ toString n
  else if n < 100 then "00" ++ toString n
  else if n < 1000 then "0" ++ toString n
  else toString n

/-- Render a day number as a `YYYY-MM-DD` string, as
`toISOString().split("T")[0]` does. -/
def dateStringOfDay (day : Int) : String :=
  let c := civilFromDays day
  pad4 c.1 ++ "-" ++ pad2 c.2.1 ++ "-" ++ pad2 c.2.2

/-- Source: `formatDateKey` (calendar-utils).  The source computes
`new Date(date).toISOString().split("T")[0]`, i.e. the UTC calendar date of
the timestamp — no local-time conversion is involved. -/
def formatDateKey (ms : Int) : String :=
  dateStringOfDay (utcDayNumber ms)

/-- UTC instant of the local midnight preceding (or equal to) instant `t`,
for a runtime whose local time is UTC plus `tz` minutes.  This is what
`d.setHours(0, 0, 0, 0)` computes on a `Date` holding `t`. -/
def localMidnight (tz t : Int) : Int :=
  Int.fdiv (t + tz * 60000) dayMs * dayMs - tz * 60000

/-- Local wall-clock hour (0–23) of instant `t`, as `Date.getHours()`. -/
def getHoursOf (tz t : Int) : Int :=
  Int.emod (Int.fdiv (t + tz * 60000) 3600000) 24

/-- Local wall-clock minute (0–59) of instant `t`, as `Date.getMinutes()`. -/
def getMinutesOf (tz t : Int) : Int :=
  Int.emod (Int.fdiv (t + tz * 60000) 60000) 60

/-! ## String utilities (JavaScript semantics, implemented on character
lists so that proofs and kernel evaluation stay elementary) -/

/-- Whether the first list is a prefix of the second. -/
def isPrefixCL : List Char → List Char → Bool
  | [], _ => true
  | _ :: _, [] => false
  | a :: as, b :: bs => a == b && isPrefixCL as bs

/-- Whether `needle` occurs as a contiguous substring of the second list. -/
def containsSubCL (needle : List Char) : List Char → Bool
  | [] => isPrefixCL needle []
  | c :: rest => isPrefixCL needle (c :: rest) || containsSubCL needle rest

/-- JavaScript `hay.includes(needle)`. -/
def jsIncludes (hay needle : String) : Bool :=
  containsSubCL needle.data hay.data

/-- JavaScript `hay.startsWith(pre)`. -/
def jsStartsWith (hay pre : String) : Bool :=
  isPrefixCL pre.data hay.data

/-- JavaScript `hay.endsWith(suf)`. -/
def jsEndsWith (hay suf : String) : Bool :=
  isPrefixCL suf.data.reverse hay.data.reverse

/-- Strip a literal suffix if present, else return the string unchanged.
Models a `.replace(/suffix$/, "")` with a literal suffix. -/
def stripSuffixStr (s suf : String) : String :=
  if jsEndsWith s suf then String.mk (s.data.take (s.data.length - suf.data.length)) else s

/-- Strip the first of the given literal suffixes that matches (the regex
alternations used by the title normalizers are all anchored at the end and
mutually exclusive). -/
def stripSuffixAny (s : String) : List String → String
  | [] => s
  | suf :: rest => if jsEndsWith s suf then stripSuffixStr s suf else stripSuffixAny s rest

/-- Characters trimmed by JavaScript `trim()` (the ASCII ones; the titles the
source normalizes only involve these). -/
def isJsSpace (c : Char) : Bool :=
  c == ' ' || c == '\t' || c == '\n' || c == '\r'

/-- JavaScript `s.trim()`. -/
def jsTrim (s : String) : String :=
  String.mk (((s.data.dropWhile isJsSpace).reverse.dropWhile isJsSpace).reverse)

/-- Replace the first occurrence of `target` by `repl`
(JavaScript `s.replace(target, repl)` with a string pattern). -/
def replaceFirstCL (target repl : List Char) : List Char → List Char
  | [] => if target == [] then repl else []
  | c :: rest =>
    if isPrefixCL target (c :: rest) then repl ++ (c :: rest).drop target.length
    else c :: replaceFirstCL target repl rest

/-- JavaScript `s.replace(target, repl)` with a string (not regex) pattern:
only the first occurrence is replaced. -/
def jsReplaceFirst (s target repl : String) : String :=
  String.mk (replaceFirstCL target.data repl.data s.data)

/-- JavaScript `s.split(sep)` for a single-character separator. -/
def splitOnCharCL (sep : Char) : List Char → List (List Char)
  | [] => [[]]
  | c :: rest =>
    let r := splitOnCharCL sep rest
    if c == sep then [] :: r
    else
      match r with
      | [] => [[c]]
      | g :: gs => (c :: g) :: gs

/-- JavaScript `s.split(sep)` (single-character separator), as strings. -/
def jsSplit (s : String) (sep : Char) : List String :=
  (splitOnCharCL sep s.data).map String.mk

/-- JavaScript `parts.join(sep)` (single-character separator). -/
def joinCharCL (sep : Char) : List (List Char) → List Char
  | [] => []
  | [g] => g
  | g :: gs => g ++ sep :: joinCharCL sep gs

/-- JavaScript `parts.join(sep)` on strings. -/
def jsJoin (sep : Char) (parts : List String) : String :=
  String.mk (joinCharCL sep (parts.map String.data))

/-- First path segment of a repository path:
`repoPath.split("/").shift()` in the source. -/
def firstSeg (s : String) : String :=
  String.mk (s.data.takeWhile (fun c => !(c == '/')))

/-- Last path segment with empty-string fallback:
`repoPath.split("/").pop() || repoPath` idiom support. -/
def lastSeg (s : String) : String :=
  (jsSplit s '/').getLastD ""

/-- JavaScript `a || b` on strings (empty string is falsy). -/
def jsOrElse (a b : String) : String :=
  if a == "" then b else a

/-! ## The GitHub URL regex

The source matches `/github\.com\/([^\/?#]+)(?:\/([^\/?#]+))?/` against a URL.
The regex engine scans left to right and succeeds at the first position where
the literal `github.com/` is followed by at least one character outside
`/?#`; the first capture is that maximal run, and the optional second capture
is the following maximal run when a `/` and at least one further such
character follow. -/

/-- Characters admitted inside a path-segment capture (`[^\/?#]`). -/
def ghSegChar (c : Char) : Bool :=
  !(c == '/') && !(c == '?') && !(c == '#')

/-- Attempt the GitHub URL pattern anchored at the head of the list. -/
def githubUrlTryAt (l : List Char) : Option (String × Option String) :=
  if isPrefixCL "github.com/".data l then
    let after := l.drop 11
    let org := after.takeWhile ghSegChar
    if org.isEmpty then none
    else
      match after.drop org.length with
      | '/' :: rest2 =>
        let repo := rest2.takeWhile ghSegChar
        if repo.isEmpty then some (String.mk org, none)
        else some (String.mk org, some (String.mk repo))
      | _ => some (String.mk org, none)
  else none

/-- Leftmost match of the GitHub URL pattern. -/
def githubUrlScan : List Char → Option (String × Option String)
  | [] => none
  | c :: rest =>
    match githubUrlTryAt (c :: rest) with
    | some r => some r
    | none => githubUrlScan rest

/-- Match `/github\.com\/([^\/?#]+)(?:\/([^\/?#]+))?/` against `url`,
returning the `(organization, repository?)` captures. -/
def githubUrlMatch (url : String) : Option (String × Option String) :=
  githubUrlScan url.data

/-! ## Data model (src/types/event.ts) -/

/-- Source: interface `CalendarEventData`. -/
structure CalendarEventData where
  location : Option String := none
  notes : Option String := none
  is_all_day : Bool
  organizer : Option String := none
  attendees : Option (List String) := none
deriving DecidableEq, Repr

/-- Source: interface `GitEventData`. -/
structure GitEventData where
  repository_id : String
  repository_name : String
  activity_type : String
  ref_name : Option String := none
  commit_hash : Option String := none
  repository_path : Option String := none
  origin_url : Option String := none
deriving DecidableEq, Repr

/-- Source: interface `BrowserHistoryEventData`. -/
structure BrowserHistoryEventData where
  url : String
  domain : String
  page_title : Option String := none
  visit_count : Nat
  repository_path : Option String := none
deriving DecidableEq, Repr

/-- Parsed form of the `type_specific_data` JSON string, tagged by the kind
of record it belongs to. -/
inductive TypeSpecificData where
  | calendar (c : CalendarEventData)
  | git (g : GitEventData)
  | browser (b : BrowserHistoryEventData)
deriving DecidableEq, Repr

/-- Source: interface `StoredEvent`.  `start_date` / `end_date` are ISO
strings in the source; they are modelled by their millisecond values. -/
structure StoredEvent where
  id : Nat
  event_type : String
  title : String
  start_date : Int
  end_date : Int
  external_id : Option String := none
  external_link : Option String := none
  type_specific_data : Option TypeSpecificData := none
  project_id : Option Nat := none
  organizer_id : Option Nat := none
  repository_path : Option String := none
  domain : Option String := none
deriving DecidableEq, Repr, Inhabited

/-- Source: `parseCalendarEventData`. -/
def parseCalendarEventData (e : StoredEvent) : Option CalendarEventData :=
  if e.event_type == "calendar" then
    match e.type_specific_data with
    | some (.calendar c) => some c
    | _ => none
  else none

/-- Source: `parseGitEventData`. -/
def parseGitEventData (e : StoredEvent) : Option GitEventData :=
  if e.event_type == "git" then
    match e.type_specific_data with
    | some (.git g) => some g
    | _ => none
  else none

/-- Source: `parseBrowserEventData`. -/
def parseBrowserEventData (e : StoredEvent) : Option BrowserHistoryEventData :=
  if e.event_type == "browser_history" then
    match e.type_specific_data with
    | some (.browser b) => some b
    | _ => none
  else none

/-! ## Domain classifier of src/types/event.ts -/

/-- Source: interface `DocumentDomainConfigs` — a domain test (the `pattern`
regex), a grouping-key extractor and a bucket (`"document"` or
`"research"`, kept as the literal strings the source uses). -/
structure DocumentDomainConfigs where
  pattern : String → Bool
  extractGroupingKey : String → String → Option String
  type : String

/-- Dropbox Paper extractor (first entry of `documentDomainConfigs`). -/
def dropboxExtract (url pageTitle : String) : Option String :=
  if url == "https://paper.dropbox.com/" || url == "https://paper.dropbox.com" ||
      url == "https://www.dropbox.com/" || url == "https://www.dropbox.com" ||
      jsStartsWith url "https://www.dropbox.com/search" ||
      jsStartsWith url "https://www.dropbox.com/home" ||
      jsStartsWith url "https://www.dropbox.com/work" then
    none
  else
    let cleanTitle := jsTrim (stripSuffixAny
      (stripSuffixAny pageTitle [" – Dropbox Paper", " — Dropbox Paper", " - Dropbox Paper"])
      [" – Dropbox", " — Dropbox", " - Dropbox"])
    if cleanTitle == "" || cleanTitle == "Dropbox Paper" || cleanTitle == "Dropbox" ||
        cleanTitle == "Files" || cleanTitle == "Files - Dropbox" ||
        cleanTitle == "Search - Dropbox" || jsStartsWith cleanTitle "Dropbox - " then
      none
    else some cleanTitle

/-- Google Docs/Sheets/Slides extractor (second entry). -/
def googleDocsExtract (url pageTitle : String) : Option String :=
  if url == "https://docs.google.com/" || url == "https://docs.google.com" then
    none
  else
    let cleanTitle := jsTrim (stripSuffixAny pageTitle
      [" - Google Docs", " - Google Sheets", " - Google Slides"])
    if cleanTitle == "" || jsStartsWith cleanTitle "Untitled" ||
        cleanTitle == "Google Docs" || cleanTitle == "Google Sheets" ||
        cleanTitle == "Google Slides" then
      none
    else some cleanTitle

/-- Scan for a marker string followed by at least one decimal digit; return
the maximal digit run.  Models regexes of the form `/marker(\d+)/`. -/
def digitCaptureScan (marker : List Char) : List Char → Option String
  | [] => none
  | c :: rest =>
    if isPrefixCL marker (c :: rest) then
      let after := (c :: rest).drop marker.length
      let digits := after.takeWhile (fun d => d.isDigit)
      if digits.isEmpty then digitCaptureScan marker rest
      else some (String.mk digits)
    else digitCaptureScan marker rest

/-- Body of the anchored monday.com root-URL pattern, without the optional
trailing slash: `https://` ++ nonempty dot-free segment ++ `.monday.com`. -/
def mondayRootBody (s : String) : Bool :=
  jsStartsWith s "https://" && jsEndsWith s ".monday.com" &&
    (let mid := (s.data.drop 8).take (s.data.length - 8 - ".monday.com".data.length)
     !mid.isEmpty && mid.all (fun c => !(c == '.')))

/-- Match `/^https:\/\/[^.]+\.monday\.com\/?$/` — the anchored monday.com
root-URL pattern. -/
def mondayRootUrl (url : String) : Bool :=
  match (url.data.reverse) with
  | '/' :: rev => mondayRootBody (String.mk rev.reverse)
  | _ => mondayRootBody url

/-- Monday.com extractor (fifth entry of `documentDomainConfigs`). -/
def mondayExtract (url pageTitle : String) : Option String :=
  if url == "https://monday.com/" || url == "https://monday.com" || mondayRootUrl url then
    none
  else
    match digitCaptureScan "/boards/".data url.data with
    | some boardId => if pageTitle == "" then some ("Board " ++ boardId) else some pageTitle
    | none =>
      match digitCaptureScan "/docs/".data url.data with
      | some docId =>
        let cleanTitle := jsTrim (stripSuffixStr (stripSuffixStr pageTitle " | monday.com")
          " - monday.com")
        if cleanTitle == "" then some ("Doc " ++ docId) else some cleanTitle
      | none =>
        if pageTitle == "" || pageTitle == "monday.com" then none
        else some pageTitle

/-- Source: `documentDomainConfigs` — the ordered rule list of the unified
pipeline's browser classifier. -/
def documentDomainConfigs : List DocumentDomainConfigs :=
  [ { pattern := fun domain => domain == "paper.dropbox.com" || domain == "www.dropbox.com",
      extractGroupingKey := dropboxExtract,
      type := "document" },
    { pattern := fun domain => domain == "docs.google.com",
      extractGroupingKey := googleDocsExtract,
      type := "document" },
    { pattern := fun domain => domain == "github.com",
      extractGroupingKey := fun _ _ => some "GitHub",
      type := "research" },
    { pattern := fun domain => domain == "claude.ai",
      extractGroupingKey := fun _ page_title => some (jsReplaceFirst page_title "- Claude" ""),
      type := "research" },
    { pattern := fun domain => jsEndsWith domain ".monday.com",
      extractGroupingKey := mondayExtract,
      type := "document" } ]

/-- Source: `isKnownGitHubRepo`. -/
def isKnownGitHubRepo (url : String) (githubOrgs : List String) : Bool :=
  match githubUrlMatch url with
  | none => false
  | some (org, repo) => githubOrgs.contains org && repo.isSome

/-- Result of `classifyBrowserData`: a grouping key plus the
`"document"` / `"research"` bucket. -/
structure BrowserClassification where
  groupingKey : String
  type : String
deriving DecidableEq, Repr

/-- Walk `documentDomainConfigs` in order; a config whose domain pattern
matches but whose extractor yields no (or an empty, hence falsy) key does
not stop the walk — the source's loop only returns on a truthy key. -/
def classifyLoop (domain url pageTitle : String) :
    List DocumentDomainConfigs → Option BrowserClassification
  | [] => none
  | config :: rest =>
    if config.pattern domain then
      match config.extractGroupingKey url pageTitle with
      | some key =>
        if key == "" then classifyLoop domain url pageTitle rest
        else some { groupingKey := key, type := config.type }
      | none => classifyLoop domain url pageTitle rest
    else classifyLoop domain url pageTitle rest

/-- Source: `classifyBrowserData`.  URLs recognized as trusted GitHub
repositories are returned unclassified (`none`) because the repository
aggregation handles them. -/
def classifyBrowserData (domain url pageTitle : String) (githubOrgs : List String) :
    Option BrowserClassification :=
  if isKnownGitHubRepo url githubOrgs then none
  else classifyLoop domain url pageTitle documentDomainConfigs

/-! ## Domain classifier of the earlier aggregation module (part_004):
`DOMAIN_CONFIGS` / `classifyDomain` with explicit buckets -/

/-- Source: type `BrowserAggregateType`. -/
inductive BrowserAggregateType where
  | collaborative_doc
  | code_repo
  | project_tool
  | domain
deriving DecidableEq, Repr

/-- Source: interface `DomainConfig` (part_004). -/
structure DomainConfig where
  pattern : String → Bool
  type : BrowserAggregateType
  extractGroupingKey : String → String → Option String
  generateTitle : String → String

/-- Domain equals `base` or is `sub.base` for one nonempty dot-free label:
the `/^([^.]+\.)?base$/` patterns (notion, figma). -/
def optSubdomainOf (domain base : String) : Bool :=
  domain == base ||
    (jsEndsWith domain ("." ++ base) &&
      (let pre := domain.data.take (domain.data.length - base.data.length - 1)
       !pre.isEmpty && pre.all (fun c => !(c == '.'))))

/-- Domain is one nonempty dot-free label followed by `.base`:
the `/^[^.]+\.base$/` pattern (slack workspaces). -/
def oneSubdomainOf (domain base : String) : Bool :=
  jsEndsWith domain ("." ++ base) &&
    (let pre := domain.data.take (domain.data.length - base.data.length - 1)
     !pre.isEmpty && pre.all (fun c => !(c == '.')))

/-- Scan for a marker followed by at least one `[^\/?#]` character; return
the maximal such run.  Models regexes of the form `/marker([^\/?#]+)/`. -/
def segCaptureScan (marker : List Char) : List Char → Option String
  | [] => none
  | c :: rest =>
    if isPrefixCL marker (c :: rest) then
      let seg := ((c :: rest).drop marker.length).takeWhile ghSegChar
      if seg.isEmpty then segCaptureScan marker rest else some (String.mk seg)
    else segCaptureScan marker rest

/-- Attempt `/gitlab\.com\/([^\/?#]+\/[^\/?#]+)/` anchored at the head. -/
def gitlabUrlTryAt (l : List Char) : Option String :=
  if isPrefixCL "gitlab.com/".data l then
    let after := l.drop 11
    let seg1 := after.takeWhile ghSegChar
    if seg1.isEmpty then none
    else
      match after.drop seg1.length with
      | '/' :: rest2 =>
        let seg2 := rest2.takeWhile ghSegChar
        if seg2.isEmpty then none
        else some (String.mk seg1 ++ "/" ++ String.mk seg2)
      | _ => none
  else none

/-- Leftmost match of the GitLab repository pattern. -/
def gitlabUrlScan : List Char → Option String
  | [] => none
  | c :: rest =>
    match gitlabUrlTryAt (c :: rest) with
    | some r => some r
    | none => gitlabUrlScan rest

/-- GitLab extractor (part_004). -/
def gitlabExtract (url _pageTitle : String) : Option String :=
  if jsIncludes url "docs.gitlab.com" || url == "https://gitlab.com/" || url == "https://gitlab.com" then
    none
  else
    match gitlabUrlScan url.data with
    | none => none
    | some m => some (jsJoin '/' ((jsSplit m '/').take 2))

/-- Everything after the first occurrence of `marker`, if any. -/
def afterSubCL (marker : List Char) : List Char → Option (List Char)
  | [] => if marker == [] then some [] else none
  | c :: rest =>
    if isPrefixCL marker (c :: rest) then some ((c :: rest).drop marker.length)
    else afterSubCL marker rest

/-- Hostname of an absolute URL, as `new URL(url).hostname` computes it for
well-formed http(s) URLs: the authority part after `://` and before the path,
with any userinfo and port stripped.  (On malformed URLs the source's `new
URL` would throw; the model totalizes with the best-effort reading.) -/
def jsURLHostname (url : String) : String :=
  let auth := ((afterSubCL "://".data url.data).getD url.data).takeWhile
    (fun c => !(c == '/') && !(c == '?') && !(c == '#'))
  let afterAt := if auth.contains '@' then (auth.reverse.takeWhile (fun c => !(c == '@'))).reverse else auth
  String.mk (afterAt.takeWhile (fun c => !(c == ':')))

/-- Slack extractor (part_004): workspace from the hostname, channel from an
`/archives/` segment. -/
def slackExtract (url _pageTitle : String) : Option String :=
  let workspace := String.mk ((jsURLHostname url).data.takeWhile (fun c => !(c == '.')))
  match segCaptureScan "/archives/".data url.data with
  | some m => some (workspace ++ "#" ++ m)
  | none => some workspace

/-- Attempt `/\/browse\/([A-Z]+-\d+)/` for Jira issue keys. -/
def jiraIssueScan : List Char → Option String
  | [] => none
  | c :: rest =>
    if isPrefixCL "/browse/".data (c :: rest) then
      let after := (c :: rest).drop 8
      let letters := after.takeWhile (fun d => d.isUpper)
      if letters.isEmpty then jiraIssueScan rest
      else
        match after.drop letters.length with
        | '-' :: rest2 =>
          let digits := rest2.takeWhile (fun d => d.isDigit)
          if digits.isEmpty then jiraIssueScan rest
          else some (String.mk letters ++ "-" ++ String.mk digits)
        | _ => jiraIssueScan rest
    else jiraIssueScan rest

/-- Jira extractor (part_004). -/
def jiraExtract (url pageTitle : String) : Option String :=
  match jiraIssueScan url.data with
  | some issue => some ((jsSplit issue '-').headD "")
  | none =>
    match segCaptureScan "/projects/".data url.data with
    | some m => some m
    | none => if pageTitle == "" then some "Jira" else some pageTitle

/-- Linear extractor (part_004). -/
def linearExtract (url pageTitle : String) : Option String :=
  match segCaptureScan "/team/".data url.data with
  | some m => some m
  | none => if pageTitle == "" then some "Linear" else some pageTitle

/-- Notion extractor (part_004). -/
def notionExtract (_url pageTitle : String) : Option String :=
  if pageTitle == "" || pageTitle == "Notion" then none else some pageTitle

/-- Figma extractor (part_004). -/
def figmaExtract (_url pageTitle : String) : Option String :=
  let cleanTitle := jsTrim (stripSuffixStr pageTitle " - Figma")
  if cleanTitle == "" || cleanTitle == "Figma" || jsStartsWith cleanTitle "Untitled" then none
  else some cleanTitle

/-- Source: `DOMAIN_CONFIGS` (part_004); GitHub is handled specially in
`classifyDomain` and has no entry here. -/
def DOMAIN_CONFIGS : List DomainConfig :=
  [ { pattern := fun domain => domain == "paper.dropbox.com" || domain == "www.dropbox.com",
      type := .collaborative_doc,
      extractGroupingKey := dropboxExtract,
      generateTitle := fun key => key },
    { pattern := fun domain => domain == "docs.google.com",
      type := .collaborative_doc,
      extractGroupingKey := googleDocsExtract,
      generateTitle := fun key => key },
    { pattern := fun domain => jsEndsWith domain ".monday.com",
      type := .collaborative_doc,
      extractGroupingKey := mondayExtract,
      generateTitle := fun key => key },
    { pattern := fun domain => optSubdomainOf domain "notion.so" || optSubdomainOf domain "notion.site",
      type := .collaborative_doc,
      extractGroupingKey := notionExtract,
      generateTitle := fun key => key },
    { pattern := fun domain => domain == "gitlab.com",
      type := .code_repo,
      extractGroupingKey := gitlabExtract,
      generateTitle := fun key => key },
    { pattern := fun domain => oneSubdomainOf domain "slack.com",
      type := .project_tool,
      extractGroupingKey := slackExtract,
      generateTitle := fun key => "Slack: " ++ key },
    { pattern := fun domain => jsEndsWith domain ".atlassian.net",
      type := .project_tool,
      extractGroupingKey := jiraExtract,
      generateTitle := fun key => if key == "Jira" then key else "Jira: " ++ key },
    { pattern := fun domain => domain == "linear.app",
      type := .project_tool,
      extractGroupingKey := linearExtract,
      generateTitle := fun key => if key == "Linear" then key else "Linear: " ++ key },
    { pattern := fun domain => optSubdomainOf domain "figma.com",
      type := .collaborative_doc,
      extractGroupingKey := figmaExtract,
      generateTitle := fun key => key } ]

/-- Walk `DOMAIN_CONFIGS` in order.  Unlike the unified pipeline's loop, a
config whose pattern matches but whose extractor yields no (or an empty)
key returns early with no classification. -/
def classifyDomainLoop (domain url pageTitle : String) :
    List DomainConfig → Option (DomainConfig × String)
  | [] => none
  | config :: rest =>
    if config.pattern domain then
      match config.extractGroupingKey url pageTitle with
      | some key => if key == "" then none else some (config, key)
      | none => none
    else classifyDomainLoop domain url pageTitle rest

/-- The ad hoc config built for a trusted GitHub repository (part_004,
`classifyDomain` github branch). -/
def githubTrustedConfig (repoPath : String) : DomainConfig :=
  { pattern := fun domain => domain == "github.com",
    type := .code_repo,
    extractGroupingKey := fun _ _ => some repoPath,
    generateTitle := fun key => key }

/-- The ad hoc generic-GitHub config (part_004, `classifyDomain`). -/
def githubGenericConfig : DomainConfig :=
  { pattern := fun domain => domain == "github.com",
    type := .code_repo,
    extractGroupingKey := fun _ _ => some "GitHub",
    generateTitle := fun _ => "GitHub" }

/-- Source: `classifyDomain` (part_004).  The result models the source's
`{config, groupingKey}` record, with the paired-null case as `none`. -/
def classifyDomain (domain url pageTitle : String) (githubOrgs : List String) :
    Option (DomainConfig × String) :=
  if domain == "github.com" then
    if jsIncludes url "docs.github.com" || url == "https://github.com/" || url == "https://github.com" then
      none
    else
      match githubUrlMatch url with
      | none => none
      | some (org, repoOpt) =>
        if githubOrgs.contains org && !((repoOpt.getD "") == "") then
          some (githubTrustedConfig (org ++ "/" ++ repoOpt.getD ""), org ++ "/" ++ repoOpt.getD "")
        else some (githubGenericConfig, "GitHub")
  else classifyDomainLoop domain url pageTitle DOMAIN_CONFIGS

/-! ## Unified UI event and aggregation (src/types/event.ts) -/

/-- Source: interface `UIEvent`.  The `type` field keeps the literal strings
the source uses (`"calendar" | "repository" | "document" | "research"`). -/
structure UIEvent where
  id : String
  type : String
  title : String
  start_date : Int
  end_date : Int
  project_id : Option Nat := none
  is_all_day : Bool
  activities : List StoredEvent
  domain : Option String := none
  repository_path : Option String := none
  repository_name : Option String := none
  origin_url : Option String := none
deriving DecidableEq, Repr

/-- Stable insertion of an element into a list sorted by `start_date`:
the new element goes after every element whose start is less than or equal
to its own. -/
def insertByStart (e : StoredEvent) : List StoredEvent → List StoredEvent
  | [] => [e]
  | b :: l => if b.start_date ≤ e.start_date then b :: insertByStart e l else e :: b :: l

/-- Stable sort by `start_date` ascending.  Models
`arr.sort((a, b) => new Date(a.start_date).getTime() - new Date(b.start_date).getTime())`:
the ECMAScript sort is stable, and all stable sorts with the same key
agree, so the algorithm choice is immaterial. -/
def sortByStart (l : List StoredEvent) : List StoredEvent :=
  l.foldl (fun acc e => insertByStart e acc) []

/-- Append an event to the group of key `k`, or open a new group at the end:
the `Map` push pattern used by both aggregators. -/
def insertGrouped (m : List (String × List StoredEvent)) (k : String) (e : StoredEvent) :
    List (String × List StoredEvent) :=
  match m with
  | [] => [(k, [e])]
  | (k1, es) :: rest =>
    if k1 = k then (k1, es ++ [e]) :: rest else (k1, es) :: insertGrouped rest k e

/-- Group a record list by an optional key, preserving the `Map` insertion
order (first occurrence of a key determines its position; members keep
input order). -/
def buildGroups (keyOf : StoredEvent → Option String) (l : List StoredEvent) :
    List (String × List StoredEvent) :=
  l.foldl (fun m e => match keyOf e with | none => m | some k => insertGrouped m k e) []

/-- Minimum of a list of timestamps with junk default, modelling
`Math.min(...times)` on the always-nonempty arrays the source builds. -/
def jsMinD (xs : List Int) : Int := (xs.min?).getD 0

/-- Maximum counterpart of `jsMinD`. -/
def jsMaxD (xs : List Int) : Int := (xs.max?).getD 0

/-- Grouping key of a browser record in `aggregateBrowserEvents`
(src/types/event.ts): classify, then build
`type:domain:dateKey:groupingKey`; `none` when the record is not a
browser-history record, its payload does not parse, or classification
declines it. -/
def browserKeyOf (githubOrgs : List String) (e : StoredEvent) : Option String :=
  if e.event_type == "browser_history" then
    match parseBrowserEventData e with
    | none => none
    | some b =>
      match classifyBrowserData b.domain b.url (b.page_title.getD "") githubOrgs with
      | none => none
      | some c =>
        some (c.type ++ ":" ++ b.domain ++ ":" ++ formatDateKey e.start_date ++ ":" ++ c.groupingKey)
  else none

/-- Build one aggregated `UIEvent` from a browser group
(body of the output loop of `aggregateBrowserEvents`).  The source sorts
`visits` in place, so every later read of `visits` sees the sorted array. -/
def mkBrowserAggregate (key : String) (visits : List StoredEvent) : UIEvent :=
  let sorted := sortByStart visits
  let parts := jsSplit key ':'
  let groupingKey := jsJoin ':' (parts.drop 3)
  let type := parts.headD ""
  let visitTimes := sorted.map (fun v => v.start_date)
  let minStart := jsMinD visitTimes
  let maxEnd := jsMaxD visitTimes
  let startBuffer : Int := if type == "document" then 900000 else 0
  let adjustedStart := minStart - startBuffer
  let adjustedEnd := maxEnd + 900000
  let span := adjustedEnd - adjustedStart
  let finalEnd := if span < 1800000 then adjustedStart + 1800000 else adjustedEnd
  { id := key,
    type := type,
    title := groupingKey,
    start_date := adjustedStart,
    end_date := finalEnd,
    project_id := (sorted.headD default).project_id,
    is_all_day := false,
    activities := sorted,
    domain := (sorted.headD default).domain }

/-- Source: `aggregateBrowserEvents` (src/types/event.ts).  Groups recognized
browser-history records by `type:domain:day:groupingKey` and emits one
aggregate per group. -/
def aggregateBrowserEvents (events : List StoredEvent) (githubOrgs : List String) :
    List UIEvent :=
  (buildGroups (browserKeyOf githubOrgs) events).filterMap
    (fun kv => if kv.2.isEmpty then none else some (mkBrowserAggregate kv.1 kv.2))

/-- The repository path carried by a record's payload (`git` records via
`parseGitEventData`, `browser_history` records via `parseBrowserEventData`). -/
def payloadRepoPath (e : StoredEvent) : Option String :=
  if e.event_type == "git" then (parseGitEventData e).bind (fun g => g.repository_path)
  else if e.event_type == "browser_history" then (parseBrowserEventData e).bind (fun b => b.repository_path)
  else none

/-- Grouping key of a record in `aggregateRepositoryEvents`:
`repoPath:dateKey` for records whose payload carries a (truthy, hence
nonempty) repository path. -/
def repoKeyOf (e : StoredEvent) : Option String :=
  match payloadRepoPath e with
  | none => none
  | some p => if p == "" then none else some (p ++ ":" ++ formatDateKey e.start_date)

/-- Append with deduplication, preserving first-occurrence order: the
JavaScript `Set.add` pattern. -/
def addOrg (acc : List String) (o : String) : List String :=
  if o ∈ acc then acc else acc ++ [o]

/-- The `discoveredGitOrgs` set of `aggregateRepositoryEvents`: first path
segment of every (truthy) repository path found on any record's payload, in
first-occurrence order. -/
def discoveredGitOrgs (events : List StoredEvent) : List String :=
  events.foldl
    (fun acc e =>
      match payloadRepoPath e with
      | none => acc
      | some p => if p == "" then acc else addOrg acc (firstSeg p))
    []

/-- Build one repository aggregate from a group (body of the output loop of
`aggregateRepositoryEvents`).  `allEvents.filter` returns fresh arrays, so
sorting `gitEvents` in place does not reorder `allEvents`; all later reads
of `gitEvents` see the sorted array. -/
def mkRepoAggregate (key : String) (allEvents : List StoredEvent) : UIEvent :=
  let repoPath := jsJoin ':' ((jsSplit key ':').dropLast)
  let gitEvents := sortByStart (allEvents.filter (fun e => e.event_type == "git"))
  let browserEvents := allEvents.filter (fun e => e.event_type == "browser_history")
  let allTimes := allEvents.map (fun e => e.start_date)
  let minStart0 := jsMinD allTimes
  let maxEnd := jsMaxD (allEvents.map (fun e => e.end_date))
  let commitFirst :=
    match gitEvents with
    | [] => false
    | g :: _ =>
      match parseGitEventData g with
      | some d => d.activity_type == "commit"
      | none => false
  let minStart := if commitFirst then minStart0 - 1800000 else minStart0
  let repoName :=
    match gitEvents with
    | [] => jsOrElse (lastSeg repoPath) repoPath
    | g :: _ =>
      jsOrElse (jsOrElse (match parseGitEventData g with
                          | some d => d.repository_name
                          | none => "") (lastSeg repoPath)) repoPath
  let originUrl :=
    match gitEvents with
    | [] => none
    | g :: _ => (parseGitEventData g).bind (fun d => d.origin_url)
  { id := "repo-" ++ repoPath ++ "-" ++ toString minStart,
    type := "repository",
    title := repoName,
    start_date := minStart,
    end_date := maxEnd,
    project_id := (allEvents.headD default).project_id,
    is_all_day := false,
    activities := gitEvents ++ browserEvents,
    repository_path := some repoPath,
    repository_name := some repoName,
    origin_url := originUrl }

/-- Source: `aggregateRepositoryEvents` (src/types/event.ts).  Returns the
repository aggregates together with the discovered GitHub organizations. -/
def aggregateRepositoryEvents (events : List StoredEvent) :
    List UIEvent × List String :=
  ((buildGroups repoKeyOf events).map (fun kv => mkRepoAggregate kv.1 kv.2),
   discoveredGitOrgs events)

/-- Source: `calendarStoredEventToUIEvent`. -/
def calendarStoredEventToUIEvent (e : StoredEvent) : UIEvent :=
  let is_all_day :=
    if e.event_type == "calendar" then
      match e.type_specific_data with
      | some (.calendar c) => c.is_all_day
      | _ => false
    else false
  { id := "event-" ++ toString e.id,
    type := "calendar",
    title := e.title,
    start_date := e.start_date,
    end_date := e.end_date,
    project_id := e.project_id,
    is_all_day := is_all_day,
    activities := [e] }

/-- Source: `aggregateAllEvents`.  Repository aggregation first; its
discovered organizations silently extend the caller-provided list before the
browser (document/research) aggregation runs. -/
def aggregateAllEvents (githubOrgs : List String) (eventsData : List StoredEvent) :
    List UIEvent :=
  let repo := aggregateRepositoryEvents eventsData
  let browserEvents := aggregateBrowserEvents eventsData (githubOrgs ++ repo.2)
  let calendarEvents := (eventsData.filter (fun e => e.event_type == "calendar")).map
    calendarStoredEventToUIEvent
  calendarEvents ++ repo.1 ++ browserEvents

/-- Source: `filterUIEventsByDay`.  `dayStart` is the local midnight of the
requested date's day, `dayEnd` is 23:59:59.999 of the same local day, and an
event is kept when `eventStart < dayEnd && eventEnd > dayStart`.  Returns
`(allDayEvents, timedEvents)`. -/
def filterUIEventsByDay (tz : Int) (events : List UIEvent) (date : Int) :
    List UIEvent × List UIEvent :=
  let dayStart := localMidnight tz date
  let dayEnd := dayStart + 86399999
  let eventsInDay := events.filter (fun e => e.start_date < dayEnd && e.end_date > dayStart)
  (eventsInDay.filter (fun e => e.is_all_day),
   eventsInDay.filter (fun e => !e.is_all_day))

/-! ## Layout engine (src/components/event-tooltip-content.tsx,
`calculateEventPositions` and the DayView geometry) -/

/-- Layout block produced for one timed event of a day (source: interface
`EventBlock`).  `top` and `height` are pixel values, kept as exact
rationals (the JavaScript arithmetic on these minute-granularity values is
exact as well). -/
structure EventBlock where
  event : UIEvent
  top : ℚ
  height : ℚ
  column : Nat
  totalColumns : Nat
deriving DecidableEq, Repr

/-- Stable insertion for the layout sort (by `start_date` of UI events). -/
def insertUIByStart (e : UIEvent) : List UIEvent → List UIEvent
  | [] => [e]
  | b :: l => if b.start_date ≤ e.start_date then b :: insertUIByStart e l else e :: b :: l

/-- Stable sort of UI events by start time (the layout engine's first step). -/
def sortUIByStart (l : List UIEvent) : List UIEvent :=
  l.foldl (fun acc e => insertUIByStart e acc) []

/-- Place one event: scan the columns left to right and append the event to
the first column whose last event ends at or before the event's start; if
none fits, open a new column at the end.  (Columns are never empty; the
defensive branch for an empty column accepts it.) -/
def placeEvent (cols : List (List UIEvent)) (e : UIEvent) : List (List UIEvent) :=
  match cols with
  | [] => [[e]]
  | c :: rest =>
    match c.getLast? with
    | some lastEvent =>
      if lastEvent.end_date ≤ e.start_date then (c ++ [e]) :: rest
      else c :: placeEvent rest e
    | none => (c ++ [e]) :: rest

/-- The greedy column assignment: fold `placeEvent` over the start-sorted
events. -/
def layoutColumns (events : List UIEvent) : List (List UIEvent) :=
  (sortUIByStart events).foldl placeEvent []

/-- Local wall-clock hour-of-day with minute precision, as the source's
`getHours() + getMinutes() / 60` (seconds and milliseconds are dropped). -/
def clockHour (tz t : Int) : ℚ :=
  (getHoursOf tz t : ℚ) + (getMinutesOf tz t : ℚ) / 60

/-- Geometry of one block (body of the emission loop): `HOUR_HEIGHT = 60`,
minimum height 30. -/
def mkEventBlock (tz : Int) (e : UIEvent) (column totalColumns : Nat) : EventBlock :=
  let startHour := clockHour tz e.start_date
  let endHour := clockHour tz e.end_date
  let duration := endHour - startHour
  { event := e,
    top := startHour * 60,
    height := max (duration * 60) 30,
    column := column,
    totalColumns := totalColumns }

/-- Source: `calculateEventPositions` (the DayView/WeekView layout engine at
lines 1640–1690): sort, pack greedily into columns, then emit one block per
event, column by column, with `totalColumns` the final column count. -/
def calculateEventPositions (tz : Int) (events : List UIEvent) : List EventBlock :=
  let columns := layoutColumns events
  (columns.enum).flatMap
    (fun ic => ic.2.map (fun e => mkEventBlock tz e ic.1 columns.length))

/-- CSS percentage pair `(left, width)` the DayView derives from a block:
`left = column * 100 / totalColumns`, `width = 100 / totalColumns`. -/
def dayViewGeometry (b : EventBlock) : ℚ × ℚ :=
  ((b.column : ℚ) * 100 / (b.totalColumns : ℚ), 100 / (b.totalColumns : ℚ))

/-! ## Infrastructure: characterization of the grouping maps -/

/-- Key list of `buildGroups`, in first-occurrence order. -/
def groupKeys (keyOf : StoredEvent → Option String) (l : List StoredEvent) : List String :=
  l.foldl (fun acc e => match keyOf e with | none => acc | some k => addOrg acc k) []

theorem insertGrouped_cons_eq (k : String) (es : List StoredEvent)
    (rest : List (String × List StoredEvent)) (e : StoredEvent) :
    insertGrouped ((k, es) :: rest) k e = (k, es ++ [e]) :: rest := by
  simp [insertGrouped]

theorem insertGrouped_cons_ne {k1 k : String} (h : k1 ≠ k) (es : List StoredEvent)
    (rest : List (String × List StoredEvent)) (e : StoredEvent) :
    insertGrouped ((k1, es) :: rest) k e = (k1, es) :: insertGrouped rest k e := by
  simp [insertGrouped, h]

theorem buildGroups_append_none {keyOf : StoredEvent → Option String} {e : StoredEvent}
    (l : List StoredEvent) (h : keyOf e = none) :
    buildGroups keyOf (l ++ [e]) = buildGroups keyOf l := by
  simp only [buildGroups, List.foldl_append, List.foldl_cons, List.foldl_nil, h]

theorem buildGroups_append_some {keyOf : StoredEvent → Option String} {e : StoredEvent}
    {k : String} (l : List StoredEvent) (h : keyOf e = some k) :
    buildGroups keyOf (l ++ [e]) = insertGrouped (buildGroups keyOf l) k e := by
  simp only [buildGroups, List.foldl_append, List.foldl_cons, List.foldl_nil, h]

theorem groupKeys_append_none {keyOf : StoredEvent → Option String} {e : StoredEvent}
    (l : List StoredEvent) (h : keyOf e = none) :
    groupKeys keyOf (l ++ [e]) = groupKeys keyOf l := by
  simp only [groupKeys, List.foldl_append, List.foldl_cons, List.foldl_nil, h]

theorem groupKeys_append_some {keyOf : StoredEvent → Option String} {e : StoredEvent}
    {k : String} (l : List StoredEvent) (h : keyOf e = some k) :
    groupKeys keyOf (l ++ [e]) = addOrg (groupKeys keyOf l) k := by
  simp only [groupKeys, List.foldl_append, List.foldl_cons, List.foldl_nil, h]

theorem addOrg_nodup {acc : List String} (h : acc.Nodup) (o : String) : (addOrg acc o).Nodup := by
  unfold addOrg
  by_cases ho : o ∈ acc
  · simpa [ho]
  · rw [if_neg ho]
    refine List.Nodup.append h (List.nodup_singleton o) ?_
    intro a ha hb
    rw [List.mem_singleton] at hb
    exact ho (hb ▸ ha)

theorem mem_addOrg {acc : List String} {o k : String} :
    k ∈ addOrg acc o ↔ k ∈ acc ∨ k = o := by
  unfold addOrg
  by_cases ho : o ∈ acc
  · simp only [ho, if_true]
    constructor
    · exact Or.inl
    · rintro (h | rfl)
      · exact h
      · exact ho
  · simp [ho]

theorem groupKeys_nodup (keyOf : StoredEvent → Option String) (l : List StoredEvent) :
    (groupKeys keyOf l).Nodup := by
  induction l using List.reverseRecOn with
  | nil => simp [groupKeys]
  | append_singleton l e ih =>
    cases h : keyOf e with
    | none => rw [groupKeys_append_none l h]; exact ih
    | some k => rw [groupKeys_append_some l h]; exact addOrg_nodup ih k

theorem mem_groupKeys {keyOf : StoredEvent → Option String} {l : List StoredEvent} {k : String} :
    k ∈ groupKeys keyOf l ↔ ∃ x ∈ l, keyOf x = some k := by
  induction l using List.reverseRecOn with
  | nil => simp [groupKeys]
  | append_singleton l e ih =>
    cases h : keyOf e with
    | none =>
      rw [groupKeys_append_none l h, ih]
      constructor
      · rintro ⟨x, hx, hk⟩
        exact ⟨x, List.mem_append.mpr (Or.inl hx), hk⟩
      · rintro ⟨x, hx, hk⟩
        rcases List.mem_append.mp hx with hx | hx
        · exact ⟨x, hx, hk⟩
        · rw [List.mem_singleton] at hx
          subst hx
          rw [h] at hk
          cases hk
    | some k0 =>
      rw [groupKeys_append_some l h, mem_addOrg, ih]
      constructor
      · rintro (⟨x, hx, hk⟩ | rfl)
        · exact ⟨x, List.mem_append.mpr (Or.inl hx), hk⟩
        · exact ⟨e, List.mem_append.mpr (Or.inr (List.mem_singleton_self e)), h⟩
      · rintro ⟨x, hx, hk⟩
        rcases List.mem_append.mp hx with hx | hx
        · exact Or.inl ⟨x, hx, hk⟩
        · rw [List.mem_singleton] at hx
          subst hx
          rw [h] at hk
          exact Or.inr (Option.some_injective _ hk).symm

theorem insertGrouped_map_of_mem {keys : List String} {k0 : String}
    (f : String → List StoredEvent) (e : StoredEvent)
    (hnd : keys.Nodup) (hmem : k0 ∈ keys) :
    insertGrouped (keys.map fun k => (k, f k)) k0 e =
      keys.map fun k => (k, if k = k0 then f k ++ [e] else f k) := by
  induction keys with
  | nil => cases hmem
  | cons a rest ih =>
    simp only [List.map_cons]
    by_cases ha : a = k0
    · subst ha
      rw [insertGrouped_cons_eq]
      have hcongr : List.map (fun k => (k, if k = a then f k ++ [e] else f k)) rest =
          List.map (fun k => (k, f k)) rest := by
        apply List.map_congr_left
        intro k hk
        have hne : k ≠ a := fun h => (List.nodup_cons.mp hnd).1 (h ▸ hk)
        simp [hne]
      rw [hcongr, if_pos rfl]
    · have hmem2 : k0 ∈ rest := by
        rcases List.mem_cons.mp hmem with h | h
        · exact absurd h.symm ha
        · exact h
      rw [insertGrouped_cons_ne ha, ih (List.nodup_cons.mp hnd).2 hmem2, if_neg ha]

theorem insertGrouped_map_of_not_mem {keys : List String} {k0 : String}
    (f : String → List StoredEvent) (e : StoredEvent) (hmem : k0 ∉ keys) :
    insertGrouped (keys.map fun k => (k, f k)) k0 e =
      (keys.map fun k => (k, f k)) ++ [(k0, [e])] := by
  induction keys with
  | nil => rfl
  | cons a rest ih =>
    simp only [List.map_cons]
    have ha : a ≠ k0 := fun h => hmem (h ▸ List.mem_cons_self a rest)
    rw [insertGrouped_cons_ne ha, ih (fun h => hmem (List.mem_cons_of_mem a h))]
    simp

theorem filter_singleton_keyOf_eq {keyOf : StoredEvent → Option String} {e : StoredEvent}
    {k0 : String} (h : keyOf e = some k0) :
    List.filter (fun x => keyOf x == some k0) [e] = [e] := by
  simp [List.filter, h]

theorem filter_singleton_keyOf_ne {keyOf : StoredEvent → Option String} {e : StoredEvent}
    {k : String} (h : keyOf e ≠ some k) :
    List.filter (fun x => keyOf x == some k) [e] = [] := by
  simp only [List.filter]
  have hb : (keyOf e == some k) = false := beq_eq_false_iff_ne.mpr h
  simp [hb]

theorem buildGroups_eq (keyOf : StoredEvent → Option String) (l : List StoredEvent) :
    buildGroups keyOf l =
      (groupKeys keyOf l).map fun k => (k, l.filter fun x => keyOf x == some k) := by
  induction l using List.reverseRecOn with
  | nil => simp [buildGroups, groupKeys]
  | append_singleton l e ih =>
    cases h : keyOf e with
    | none =>
      rw [buildGroups_append_none l h, groupKeys_append_none l h, ih]
      apply List.map_congr_left
      intro k _
      rw [List.filter_append, filter_singleton_keyOf_ne (h ▸ (by simp)), List.append_nil]
    | some k0 =>
      rw [buildGroups_append_some l h, groupKeys_append_some l h, ih]
      by_cases hk0 : k0 ∈ groupKeys keyOf l
      · rw [insertGrouped_map_of_mem _ e (groupKeys_nodup keyOf l) hk0]
        have haddOrg : addOrg (groupKeys keyOf l) k0 = groupKeys keyOf l := by
          simp [addOrg, hk0]
        rw [haddOrg]
        apply List.map_congr_left
        intro k _
        rw [List.filter_append]
        by_cases hkk : k = k0
        · subst hkk
          rw [filter_singleton_keyOf_eq h, if_pos rfl]
        · rw [filter_singleton_keyOf_ne (fun hh => hkk (Option.some_injective _ (h ▸ hh : some k0 = some k)).symm),
            List.append_nil, if_neg hkk]
      · rw [insertGrouped_map_of_not_mem _ e hk0]
        have haddOrg : addOrg (groupKeys keyOf l) k0 = groupKeys keyOf l ++ [k0] := by
          simp [addOrg, hk0]
        rw [haddOrg, List.map_append]
        congr 1
        · apply List.map_congr_left
          intro k hk
          have hkk : k ≠ k0 := fun hh => hk0 (hh ▸ hk)
          rw [List.filter_append,
            filter_singleton_keyOf_ne (fun hh => hkk (Option.some_injective _ (h ▸ hh : some k0 = some k)).symm),
            List.append_nil]
        · have hfl : l.filter (fun x => keyOf x == some k0) = [] := by
            rw [List.filter_eq_nil_iff]
            intro x hx hbeq
            exact hk0 (mem_groupKeys.mpr ⟨x, hx, by simpa using hbeq⟩)
          rw [List.map_cons, List.map_nil, List.filter_append, hfl,
            filter_singleton_keyOf_eq h]
          rfl

theorem mem_buildGroups_iff {keyOf : StoredEvent → Option String} {l : List StoredEvent}
    {k : String} {vs : List StoredEvent} :
    (k, vs) ∈ buildGroups keyOf l ↔
      k ∈ groupKeys keyOf l ∧ vs = l.filter fun x => keyOf x == some k := by
  rw [buildGroups_eq, List.mem_map]
  constructor
  · rintro ⟨k1, hk1, heq⟩
    obtain ⟨rfl, rfl⟩ : k1 = k ∧ (l.filter fun x => keyOf x == some k1) = vs := by
      exact ⟨congrArg Prod.fst heq, congrArg Prod.snd heq⟩
    exact ⟨hk1, rfl⟩
  · rintro ⟨hk, rfl⟩
    exact ⟨k, hk, rfl⟩

theorem member_of_group {keyOf : StoredEvent → Option String} {l : List StoredEvent}
    {k : String} {vs : List StoredEvent} {x : StoredEvent}
    (hg : (k, vs) ∈ buildGroups keyOf l) (hx : x ∈ vs) : x ∈ l ∧ keyOf x = some k := by
  obtain ⟨-, rfl⟩ := mem_buildGroups_iff.mp hg
  have := List.mem_filter.mp hx
  exact ⟨this.1, by simpa using this.2⟩

theorem exists_group_mem {keyOf : StoredEvent → Option String} {l : List StoredEvent}
    {k : String} {x : StoredEvent} (hx : x ∈ l) (hk : keyOf x = some k) :
    ∃ vs, (k, vs) ∈ buildGroups keyOf l ∧ x ∈ vs := by
  refine ⟨l.filter fun y => keyOf y == some k, ?_, ?_⟩
  · exact mem_buildGroups_iff.mpr ⟨mem_groupKeys.mpr ⟨x, hx, hk⟩, rfl⟩
  · exact List.mem_filter.mpr ⟨hx, by simp [hk]⟩

theorem countP_map_le_one {β : Type} (keys : List String) (f : String → β) (p : β → Bool)
    (hnd : keys.Nodup) (k0 : String) (hp : ∀ k ∈ keys, p (f k) = true → k = k0) :
    (keys.map f).countP p ≤ 1 := by
  induction keys with
  | nil => simp
  | cons a rest ih =>
    simp only [List.map_cons, List.countP_cons]
    by_cases hpa : p (f a) = true
    · have ha : a = k0 := hp a (List.mem_cons_self a rest) hpa
      have hzero : (rest.map f).countP p = 0 := by
        rw [List.countP_eq_zero]
        intro b hb
        rw [List.mem_map] at hb
        obtain ⟨k, hk, rfl⟩ := hb
        intro hpk
        have : k = k0 := hp k (List.mem_cons_of_mem a hk) hpk
        exact (List.nodup_cons.mp hnd).1 (by rw [ha, ← this]; exact hk)
      simp [hzero, hpa]
    · have : (p (f a) : Bool) = false := by simpa using hpa
      rw [this]
      simpa using ih (List.nodup_cons.mp hnd).2
        (fun k hk => hp k (List.mem_cons_of_mem a hk))

theorem groupKeys_perm {keyOf : StoredEvent → Option String} {l₁ l₂ : List StoredEvent}
    (h : l₁.Perm l₂) : (groupKeys keyOf l₁).Perm (groupKeys keyOf l₂) := by
  rw [List.perm_ext_iff_of_nodup (groupKeys_nodup keyOf l₁) (groupKeys_nodup keyOf l₂)]
  intro k
  rw [mem_groupKeys, mem_groupKeys]
  constructor
  · rintro ⟨x, hx, hk⟩; exact ⟨x, h.mem_iff.mp hx, hk⟩
  · rintro ⟨x, hx, hk⟩; exact ⟨x, h.mem_iff.mpr hx, hk⟩

/-! ## Infrastructure: permutation invariance of list minima / maxima -/

theorem foldl_min_perm {l₁ l₂ : List Int} (h : l₁.Perm l₂) :
    ∀ a : Int, l₁.foldl min a = l₂.foldl min a := by
  induction h with
  | nil => intro a; rfl
  | cons x p ih => intro a; simp only [List.foldl_cons]; exact ih (min a x)
  | swap x y l => intro a; simp only [List.foldl_cons]; rw [min_right_comm]
  | trans p₁ p₂ ih₁ ih₂ => intro a; exact (ih₁ a).trans (ih₂ a)

theorem foldl_max_perm {l₁ l₂ : List Int} (h : l₁.Perm l₂) :
    ∀ a : Int, l₁.foldl max a = l₂.foldl max a := by
  induction h with
  | nil => intro a; rfl
  | cons x p ih => intro a; simp only [List.foldl_cons]; exact ih (max a x)
  | swap x y l =>
    intro a
    simp only [List.foldl_cons]
    congr 1
    rw [max_assoc, max_comm y x, ← max_assoc]
  | trans p₁ p₂ ih₁ ih₂ => intro a; exact (ih₁ a).trans (ih₂ a)

theorem min?_perm {l₁ l₂ : List Int} (h : l₁.Perm l₂) : l₁.min? = l₂.min? := by
  induction h with
  | nil => rfl
  | cons x p ih => simp only [List.min?_cons, ih]
  | swap x y l =>
    cases hm : l.min? with
    | none => simp [List.min?_cons, hm, min_comm]
    | some m => simp [List.min?_cons, hm, min_left_comm]
  | trans p₁ p₂ ih₁ ih₂ => exact ih₁.trans ih₂

theorem max?_perm {l₁ l₂ : List Int} (h : l₁.Perm l₂) : l₁.max? = l₂.max? := by
  induction h with
  | nil => rfl
  | cons x p ih => simp only [List.max?_cons, ih]
  | swap x y l =>
    cases hm : l.max? with
    | none => simp [List.max?_cons, hm, max_comm]
    | some m => simp [List.max?_cons, hm, max_left_comm]
  | trans p₁ p₂ ih₁ ih₂ => exact ih₁.trans ih₂

theorem jsMinD_perm {l₁ l₂ : List Int} (h : l₁.Perm l₂) : jsMinD l₁ = jsMinD l₂ := by
  unfold jsMinD; rw [min?_perm h]

theorem jsMaxD_perm {l₁ l₂ : List Int} (h : l₁.Perm l₂) : jsMaxD l₁ = jsMaxD l₂ := by
  unfold jsMaxD; rw [max?_perm h]

/-! ## Infrastructure: the stable start-date sort -/

theorem insertByStart_perm (e : StoredEvent) (l : List StoredEvent) :
    (insertByStart e l).Perm (e :: l) := by
  induction l with
  | nil => exact List.Perm.refl _
  | cons b rest ih =>
    unfold insertByStart
    by_cases hb : b.start_date ≤ e.start_date
    · rw [if_pos hb]
      exact (ih.cons b).trans (List.Perm.swap e b rest)
    · rw [if_neg hb]

theorem sortByStart_aux_perm (l : List StoredEvent) :
    ∀ acc : List StoredEvent, (l.foldl (fun acc e => insertByStart e acc) acc).Perm (acc ++ l) := by
  induction l with
  | nil => intro acc; simp
  | cons x rest ih =>
    intro acc
    simp only [List.foldl_cons]
    refine ((ih (insertByStart x acc)).trans
      (List.Perm.append_right rest (insertByStart_perm x acc))).trans ?_
    simp only [List.cons_append]
    exact List.perm_middle.symm

theorem sortByStart_perm (l : List StoredEvent) : (sortByStart l).Perm l := by
  simpa using sortByStart_aux_perm l []

theorem insertByStart_pairwise {l : List StoredEvent} (e : StoredEvent)
    (h : l.Pairwise fun a b => a.start_date ≤ b.start_date) :
    (insertByStart e l).Pairwise fun a b => a.start_date ≤ b.start_date := by
  induction l with
  | nil => simp [insertByStart]
  | cons b rest ih =>
    unfold insertByStart
    rcases List.pairwise_cons.mp h with ⟨hb, hrest⟩
    by_cases hble : b.start_date ≤ e.start_date
    · rw [if_pos hble]
      refine List.pairwise_cons.mpr ⟨?_, ih hrest⟩
      intro x hx
      have hx2 := (insertByStart_perm e rest).mem_iff.mp hx
      rcases List.mem_cons.mp hx2 with rfl | hx3
      · exact hble
      · exact hb x hx3
    · rw [if_neg hble]
      refine List.pairwise_cons.mpr ⟨?_, h⟩
      intro x hx
      rcases List.mem_cons.mp hx with rfl | hx2
      · exact le_of_not_le hble
      · exact le_trans (le_of_not_le hble) (hb x hx2)

theorem sortByStart_pairwise (l : List StoredEvent) :
    (sortByStart l).Pairwise fun a b => a.start_date ≤ b.start_date := by
  unfold sortByStart
  suffices h : ∀ acc : List StoredEvent,
      (acc.Pairwise fun a b => a.start_date ≤ b.start_date) →
      (l.foldl (fun acc e => insertByStart e acc) acc).Pairwise
        fun a b => a.start_date ≤ b.start_date by
    exact h [] (by simp)
  induction l with
  | nil => intro acc hacc; simpa using hacc
  | cons x rest ih =>
    intro acc hacc
    simp only [List.foldl_cons]
    exact ih (insertByStart x acc) (insertByStart_pairwise x hacc)

theorem sortByStart_eq_of_perm {l₁ l₂ : List StoredEvent} (h : l₁.Perm l₂)
    (hnd : (l₁.map (fun e => e.start_date)).Nodup) :
    sortByStart l₁ = sortByStart l₂ := by
  have hperm : (sortByStart l₁).Perm (sortByStart l₂) :=
    ((sortByStart_perm l₁).trans h).trans (sortByStart_perm l₂).symm
  have hnd1 : ((sortByStart l₁).map (fun e => e.start_date)).Nodup :=
    (((sortByStart_perm l₁).map (fun e => e.start_date)).nodup_iff).mpr hnd
  have hnd2 : ((sortByStart l₂).map (fun e => e.start_date)).Nodup :=
    ((hperm.map (fun e => e.start_date)).nodup_iff).mp hnd1
  have hne1 : (sortByStart l₁).Pairwise fun a b => a.start_date ≠ b.start_date :=
    List.pairwise_map.mp hnd1
  have hne2 : (sortByStart l₂).Pairwise fun a b => a.start_date ≠ b.start_date :=
    List.pairwise_map.mp hnd2
  have hlt1 : (sortByStart l₁).Pairwise fun a b => a.start_date < b.start_date := by
    have := (sortByStart_pairwise l₁).and hne1
    exact this.imp (fun h => lt_of_le_of_ne h.1 h.2)
  have hlt2 : (sortByStart l₂).Pairwise fun a b => a.start_date < b.start_date := by
    have := (sortByStart_pairwise l₂).and hne2
    exact this.imp (fun h => lt_of_le_of_ne h.1 h.2)
  haveI : IsAntisymm StoredEvent (fun a b => a.start_date < b.start_date) :=
    ⟨fun a b h1 h2 => absurd (lt_trans h1 h2) (lt_irrefl _)⟩
  exact List.eq_of_perm_of_sorted hperm hlt1 hlt2

/-! ## Infrastructure: shape of the aggregation outputs -/

theorem mem_aggregateBrowserEvents {l : List StoredEvent} {orgs : List String} {a : UIEvent} :
    a ∈ aggregateBrowserEvents l orgs ↔
      ∃ kv ∈ buildGroups (browserKeyOf orgs) l, kv.2 ≠ [] ∧ a = mkBrowserAggregate kv.1 kv.2 := by
  unfold aggregateBrowserEvents
  rw [List.mem_filterMap]
  constructor
  · rintro ⟨kv, hkv, hf⟩
    by_cases he : kv.2.isEmpty
    · rw [if_pos he] at hf; cases hf
    · rw [if_neg he] at hf
      exact ⟨kv, hkv, by simpa using he, (Option.some_injective _ hf).symm⟩
  · rintro ⟨kv, hkv, hne, rfl⟩
    refine ⟨kv, hkv, ?_⟩
    rw [if_neg (by simpa using hne)]

theorem mem_aggregateRepositoryEvents {l : List StoredEvent} {a : UIEvent} :
    a ∈ (aggregateRepositoryEvents l).1 ↔
      ∃ kv ∈ buildGroups repoKeyOf l, a = mkRepoAggregate kv.1 kv.2 := by
  unfold aggregateRepositoryEvents
  rw [List.mem_map]
  constructor
  · rintro ⟨kv, hkv, rfl⟩; exact ⟨kv, hkv, rfl⟩
  · rintro ⟨kv, hkv, rfl⟩; exact ⟨kv, hkv, rfl⟩

theorem group_member_types {l : List StoredEvent} {k : String} {vs : List StoredEvent}
    (hg : (k, vs) ∈ buildGroups repoKeyOf l) :
    ∀ e ∈ vs, e.event_type = "git" ∨ e.event_type = "browser_history" := by
  intro e he
  have hk := (member_of_group hg he).2
  unfold repoKeyOf payloadRepoPath at hk
  by_cases hgit : e.event_type == "git"
  · exact Or.inl (by simpa using hgit)
  · by_cases hbr : e.event_type == "browser_history"
    · exact Or.inr (by simpa using hbr)
    · rw [if_neg hgit, if_neg hbr] at hk
      cases hk

theorem mkRepoAggregate_activities_filter_git (key : String) (vs : List StoredEvent) :
    (mkRepoAggregate key vs).activities.filter (fun e => e.event_type == "git") =
      sortByStart (vs.filter fun e => e.event_type == "git") := by
  show ((sortByStart (vs.filter fun e => e.event_type == "git")) ++
      (vs.filter fun e => e.event_type == "browser_history")).filter
        (fun e => e.event_type == "git") = _
  rw [List.filter_append]
  have h1 : (sortByStart (vs.filter fun e => e.event_type == "git")).filter
      (fun e => e.event_type == "git") = sortByStart (vs.filter fun e => e.event_type == "git") := by
    rw [List.filter_eq_self]
    intro e he
    have := (sortByStart_perm _).mem_iff.mp he
    exact (List.mem_filter.mp this).2
  have h2 : (vs.filter fun e => e.event_type == "browser_history").filter
      (fun e => e.event_type == "git") = [] := by
    rw [List.filter_eq_nil_iff]
    intro e he
    have hb := (List.mem_filter.mp he).2
    have : e.event_type = "browser_history" := by simpa using hb
    simp [this]
  rw [h1, h2, List.append_nil]

theorem mkRepoAggregate_activities_perm (key : String) (vs : List StoredEvent)
    (hvs : ∀ e ∈ vs, e.event_type = "git" ∨ e.event_type = "browser_history") :
    (mkRepoAggregate key vs).activities.Perm vs := by
  show ((sortByStart (vs.filter fun e => e.event_type == "git")) ++
      (vs.filter fun e => e.event_type == "browser_history")).Perm vs
  have hsort : (sortByStart (vs.filter fun e => e.event_type == "git")).Perm
      (vs.filter fun e => e.event_type == "git") := sortByStart_perm _
  have hbrowser : (vs.filter fun e => e.event_type == "browser_history") =
      vs.filter (fun e => !(e.event_type == "git")) := by
    apply List.filter_congr
    intro e he
    rcases hvs e he with h | h <;> simp [h]
  rw [hbrowser]
  exact (List.Perm.append hsort (List.Perm.refl _)).trans (List.filter_append_perm _ vs)

/-! ## Test fixtures for the concrete scenarios -/

/-- Payload builder for git records. -/
def mkGitTSD (rid rname atype : String) (rpath : Option String) : TypeSpecificData :=
  .git { repository_id := rid, repository_name := rname, activity_type := atype,
         repository_path := rpath }

/-- Payload builder for browser-history records. -/
def mkBrowserTSD (url dom : String) (title : Option String) (rpath : Option String) :
    TypeSpecificData :=
  .browser { url := url, domain := dom, page_title := title, visit_count := 1,
             repository_path := rpath }

/-- Record builder. -/
def mkStored (i : Nat) (et : String) (s e : Int) (tsd : Option TypeSpecificData) : StoredEvent :=
  { id := i, event_type := et, title := "t", start_date := s, end_date := e,
    type_specific_data := tsd }

/-- A commit at 10:00–10:05 (UTC, 1970-01-01) on repository acme/widget. -/
def commitTenEvent : StoredEvent :=
  mkStored 1 "git" 36000000 36300000 (some (mkGitTSD "r1" "widget" "commit" (some "acme/widget")))

/-- A Google-Docs browsing visit at 14:00–14:01 (UTC, 1970-01-01). -/
def googleDocVisit : StoredEvent :=
  mkStored 2 "browser_history" 50400000 50460000
    (some (mkBrowserTSD "https://docs.google.com/document/d/abc/edit" "docs.google.com"
      (some "Design Doc - Google Docs") none))

/-! ## Observables used by the claim statements -/

/-- Whether the chronologically-first version-control member of an aggregate
is a commit (the condition triggering the 30-minute start extension). -/
def firstGitIsCommit (a : UIEvent) : Bool :=
  match a.activities.filter (fun e => e.event_type == "git") with
  | [] => false
  | g :: _ =>
    match parseGitEventData g with
    | some d => d.activity_type == "commit"
    | none => false

/-- The same condition, computed from a raw group. -/
def commitFirstOf (vs : List StoredEvent) : Bool :=
  match sortByStart (vs.filter fun e => e.event_type == "git") with
  | [] => false
  | g :: _ =>
    match parseGitEventData g with
    | some d => d.activity_type == "commit"
    | none => false

/-- Earliest member start of an aggregate. -/
def specMinStart (a : UIEvent) : Option Int :=
  (a.activities.map fun e => e.start_date).min?

/-- Latest member end of an aggregate. -/
def specMaxEnd (a : UIEvent) : Option Int :=
  (a.activities.map fun e => e.end_date).max?

/-- Latest member start of an aggregate (what the browser aggregation
actually feeds its end buffer). -/
def specMaxStart (a : UIEvent) : Option Int :=
  (a.activities.map fun e => e.start_date).max?

theorem mkRepoAggregate_start_date (key : String) (vs : List StoredEvent) :
    (mkRepoAggregate key vs).start_date =
      if commitFirstOf vs then jsMinD (vs.map fun e => e.start_date) - 1800000
      else jsMinD (vs.map fun e => e.start_date) := rfl

theorem mkRepoAggregate_end_date (key : String) (vs : List StoredEvent) :
    (mkRepoAggregate key vs).end_date = jsMaxD (vs.map fun e => e.end_date) := rfl

theorem firstGitIsCommit_mkRepo (key : String) (vs : List StoredEvent) :
    firstGitIsCommit (mkRepoAggregate key vs) = commitFirstOf vs := by
  unfold firstGitIsCommit commitFirstOf
  rw [mkRepoAggregate_activities_filter_git]

theorem mkBrowserAggregate_type (k : String) (vs : List StoredEvent) :
    (mkBrowserAggregate k vs).type = (jsSplit k ':').headD "" := rfl

theorem mkBrowserAggregate_activities (k : String) (vs : List StoredEvent) :
    (mkBrowserAggregate k vs).activities = sortByStart vs := rfl

theorem mkBrowserAggregate_start_date (k : String) (vs : List StoredEvent) :
    (mkBrowserAggregate k vs).start_date =
      jsMinD ((sortByStart vs).map fun v => v.start_date) -
        (if (jsSplit k ':').headD "" == "document" then 900000 else 0) := rfl

theorem mkBrowserAggregate_end_date (k : String) (vs : List StoredEvent) :
    (mkBrowserAggregate k vs).end_date =
      (let adjStart := jsMinD ((sortByStart vs).map fun v => v.start_date) -
        (if (jsSplit k ':').headD "" == "document" then 900000 else 0)
       let adjEnd := jsMaxD ((sortByStart vs).map fun v => v.start_date) + 900000
       if adjEnd - adjStart < 1800000 then adjStart + 1800000 else adjEnd) := rfl

theorem jsMinD_singleton (x : Int) : jsMinD [x] = x := rfl

theorem jsMaxD_singleton (x : Int) : jsMaxD [x] = x := rfl

/-! ## Claim C2 — commit heuristic -/

/-- C2 counterexample: a version-control group consisting of a single commit
10:00–10:05 (on 1970-01-01 UTC) yields the aggregate span 09:30–10:05, not
the claimed 09:30–10:20: `aggregateRepositoryEvents` never applies a
15-minute end extension. -/
theorem C2_counterexample :
    ((aggregateRepositoryEvents [commitTenEvent]).1.map fun a => (a.start_date, a.end_date)) =
        [(34200000, 36300000)] ∧
      ((aggregateRepositoryEvents [commitTenEvent]).1.map fun a => (a.start_date, a.end_date)) ≠
        [(34200000, 37200000)] :=
  ⟨by decide, by decide⟩

/-- C2 amended: for every repository aggregate whose chronologically-first
version-control member is a commit and whose members span 10:00 to 10:05,
the aggregate span is exactly 09:30–10:05 — the start is moved back 30
minutes, and the end is the latest member end with no 15-minute extension
(that extension exists only in the browser aggregation). -/
theorem C2_amended (l : List StoredEvent) (a : UIEvent)
    (hmem : a ∈ (aggregateRepositoryEvents l).1)
    (hcommit : firstGitIsCommit a = true)
    (hmin : specMinStart a = some 36000000)
    (hmax : specMaxEnd a = some 36300000) :
    a.start_date = 34200000 ∧ a.end_date = 36300000 := by
  obtain ⟨⟨k, vs⟩, hkv, rfl⟩ := mem_aggregateRepositoryEvents.mp hmem
  have htypes := group_member_types hkv
  have hperm := mkRepoAggregate_activities_perm k vs htypes
  have hmin2 : (vs.map fun e => e.start_date).min? = some 36000000 := by
    rw [← min?_perm (hperm.map fun e => e.start_date)]
    exact hmin
  have hmax2 : (vs.map fun e => e.end_date).max? = some 36300000 := by
    rw [← max?_perm (hperm.map fun e => e.end_date)]
    exact hmax
  have hcf : commitFirstOf vs = true := by
    rw [← firstGitIsCommit_mkRepo k vs]
    exact hcommit
  constructor
  · rw [mkRepoAggregate_start_date, hcf, if_pos rfl]
    unfold jsMinD
    rw [hmin2]
    rfl
  · rw [mkRepoAggregate_end_date]
    unfold jsMaxD
    rw [hmax2]
    rfl

/-- C2 witness: the amended theorem applied to the single-commit group. -/
theorem C2_witness :
    (mkRepoAggregate "acme/widget:1970-01-01" [commitTenEvent]).start_date = 34200000 ∧
      (mkRepoAggregate "acme/widget:1970-01-01" [commitTenEvent]).end_date = 36300000 :=
  C2_amended [commitTenEvent] (mkRepoAggregate "acme/widget:1970-01-01" [commitTenEvent])
    (by decide) (by decide) (by decide) (by decide)

/-! ## Claim C3 — collaborative-doc buffer -/

/-- C3 counterexample: a single recognized collaborative-document visit
14:00–14:01 yields the aggregate span 13:45–14:15, not the claimed
13:45–14:30: the 15-minute end buffer is applied to the latest visit START
time (visit end timestamps are ignored by the browser aggregation), and the
30-minute floor is then exactly met. -/
theorem C3_counterexample :
    ((aggregateBrowserEvents [googleDocVisit] []).map fun a => (a.start_date, a.end_date)) =
        [(49500000, 51300000)] ∧
      ((aggregateBrowserEvents [googleDocVisit] []).map fun a => (a.start_date, a.end_date)) ≠
        [(49500000, 52200000)] :=
  ⟨by decide, by decide⟩

/-- C3 amended: a document-bucket aggregate whose only member is a visit
starting 14:00 (ending 14:01) spans exactly 13:45–14:15: 15 minutes are
subtracted from the start, the 15-minute end buffer is added to the latest
visit start (the visit's end timestamp is ignored), and the 30-minute floor
is exactly met. -/
theorem C3_amended (l : List StoredEvent) (orgs : List String) (a : UIEvent) (v : StoredEvent)
    (hmem : a ∈ aggregateBrowserEvents l orgs)
    (hact : a.activities = [v])
    (htype : a.type = "document")
    (hs : v.start_date = 50400000)
    (_he : v.end_date = 50460000) :
    a.start_date = 49500000 ∧ a.end_date = 51300000 := by
  obtain ⟨⟨k, vs⟩, hkv, hne, rfl⟩ := mem_aggregateBrowserEvents.mp hmem
  rw [mkBrowserAggregate_activities] at hact
  have hvs : vs = [v] := by
    have hp : vs.Perm [v] := by
      have := sortByStart_perm vs
      rw [hact] at this
      exact this.symm
    exact List.perm_singleton.mp hp
  subst hvs
  rw [mkBrowserAggregate_type] at htype
  have htypeb : ((jsSplit k ':').headD "" == "document") = true := beq_iff_eq.mpr htype
  have hsort : sortByStart [v] = [v] := rfl
  constructor
  · rw [mkBrowserAggregate_start_date, hsort]
    simp only [List.map_cons, List.map_nil, jsMinD_singleton, htypeb, if_true, hs]
    rfl
  · rw [mkBrowserAggregate_end_date, hsort]
    simp only [List.map_cons, List.map_nil, jsMinD_singleton, jsMaxD_singleton, htypeb,
      if_true, hs]
    rfl

/-- C3 witness: the amended theorem applied to the single Google-Docs
visit. -/
theorem C3_witness :
    (mkBrowserAggregate "document:docs.google.com:1970-01-01:Design Doc" [googleDocVisit]).start_date = 49500000 ∧
      (mkBrowserAggregate "document:docs.google.com:1970-01-01:Design Doc" [googleDocVisit]).end_date = 51300000 :=
  C3_amended [googleDocVisit] []
    (mkBrowserAggregate "document:docs.google.com:1970-01-01:Design Doc" [googleDocVisit])
    googleDocVisit (by decide) (by decide) (by decide) (by decide) (by decide)

/-! ## Claim C6 — day component of the grouping key -/

/-- Local calendar-day number of a timestamp (the truncation the
specification describes for `calendar_day`). -/
def localDayNumber (tz ms : Int) : Int := Int.fdiv (ms + tz * 60000) dayMs

/-- Push to repository acme/widget at 21:00 UTC on 1970-01-01. -/
def repoVisit2100 : StoredEvent :=
  mkStored 6 "git" 75600000 75660000 (some (mkGitTSD "r1" "widget" "push" (some "acme/widget")))

/-- Push to repository acme/widget at 23:00 UTC on 1970-01-01. -/
def repoVisit2300 : StoredEvent :=
  mkStored 7 "git" 82800000 82860000 (some (mkGitTSD "r1" "widget" "push" (some "acme/widget")))

/-- Push to repository acme/widget at 01:00 UTC on 1970-01-02. -/
def repoVisit0100 : StoredEvent :=
  mkStored 8 "git" 90000000 90060000 (some (mkGitTSD "r1" "widget" "push" (some "acme/widget")))

/-- C6 counterexample: in a UTC+2 runtime, the visits at 23:00 UTC and 25:00
UTC fall on the same LOCAL day (both 1970-01-02 locally), yet
`formatDateKey` — a UTC truncation — separates them, their grouping keys
differ, and they aggregate into two distinct repository events instead of
one. -/
theorem C6_counterexample :
    localDayNumber 120 repoVisit2300.start_date = localDayNumber 120 repoVisit0100.start_date ∧
      formatDateKey repoVisit2300.start_date ≠ formatDateKey repoVisit0100.start_date ∧
      repoKeyOf repoVisit2300 ≠ repoKeyOf repoVisit0100 ∧
      (aggregateRepositoryEvents [repoVisit2300, repoVisit0100]).1.length = 2 := by
  refine ⟨by decide, by decide, by decide, by decide⟩

/-- C6 amended: the `calendar_day` component of the grouping key is the
record's start timestamp truncated to a UTC calendar day
(`toISOString().split("T")[0]`), not a local one: two eligible records with
the same payload repository path whose starts share a UTC day number get the
same grouping key and land in the same aggregate, regardless of the
runtime's local timezone (and even when their local days differ, as the
witness below shows for UTC+2). -/
theorem C6_amended (l : List StoredEvent) (e₁ e₂ : StoredEvent) (p : String)
    (h₁ : e₁ ∈ l) (h₂ : e₂ ∈ l)
    (hp₁ : payloadRepoPath e₁ = some p) (hp₂ : payloadRepoPath e₂ = some p)
    (hpne : p ≠ "")
    (hday : utcDayNumber e₁.start_date = utcDayNumber e₂.start_date) :
    repoKeyOf e₁ = repoKeyOf e₂ ∧
      ∃ a ∈ (aggregateRepositoryEvents l).1, e₁ ∈ a.activities ∧ e₂ ∈ a.activities := by
  have hpb : (p == "") = false := beq_eq_false_iff_ne.mpr hpne
  have hk₁ : repoKeyOf e₁ = some (p ++ ":" ++ formatDateKey e₁.start_date) := by
    unfold repoKeyOf
    rw [hp₁]
    simp [hpb]
  have hk₂ : repoKeyOf e₂ = some (p ++ ":" ++ formatDateKey e₂.start_date) := by
    unfold repoKeyOf
    rw [hp₂]
    simp [hpb]
  have hfd : formatDateKey e₁.start_date = formatDateKey e₂.start_date := by
    unfold formatDateKey
    rw [hday]
  have hkeq : repoKeyOf e₁ = repoKeyOf e₂ := by rw [hk₁, hk₂, hfd]
  refine ⟨hkeq, ?_⟩
  obtain ⟨vs, hgv, hmem1⟩ := exists_group_mem h₁ hk₁
  have hmem2 : e₂ ∈ vs := by
    obtain ⟨-, rfl⟩ := mem_buildGroups_iff.mp hgv
    refine List.mem_filter.mpr ⟨h₂, ?_⟩
    rw [← hkeq] at hk₂
    have : repoKeyOf e₂ = some (p ++ ":" ++ formatDateKey e₁.start_date) := by
      rw [← hkeq, hk₁]
    simp [this]
  refine ⟨mkRepoAggregate (p ++ ":" ++ formatDateKey e₁.start_date) vs, ?_, ?_, ?_⟩
  · exact mem_aggregateRepositoryEvents.mpr ⟨(_, vs), hgv, rfl⟩
  · exact (mkRepoAggregate_activities_perm _ vs (group_member_types hgv)).mem_iff.mpr hmem1
  · exact (mkRepoAggregate_activities_perm _ vs (group_member_types hgv)).mem_iff.mpr hmem2

/-- C6 witness: the amended theorem applied to the 21:00 UTC and 23:00 UTC
visits, which share the UTC day 1970-01-01 although in a UTC+2 runtime their
local days differ. -/
theorem C6_witness :
    repoKeyOf repoVisit2100 = repoKeyOf repoVisit2300 ∧
      ∃ a ∈ (aggregateRepositoryEvents [repoVisit2100, repoVisit2300]).1,
        repoVisit2100 ∈ a.activities ∧ repoVisit2300 ∈ a.activities :=
  C6_amended [repoVisit2100, repoVisit2300] repoVisit2100 repoVisit2300 "acme/widget"
    (by decide) (by decide) (by decide) (by decide) (by decide) (by decide)

/-! ## Claim C7 — day-partition membership -/

/-- Timed UI event builder for the layout and partition claims. -/
def mkTimedUIEvent (idStr : String) (s e : Int) : UIEvent :=
  { id := idStr, type := "calendar", title := idStr, start_date := s, end_date := e,
    is_all_day := false, activities := [] }

/-- An event starting at 23:59:59.999 and ending 01:00 the next day. -/
def edgeUIEvent : UIEvent := mkTimedUIEvent "edge" 86399999 90000000

/-- An event spanning 23:30 to 00:30 across the first midnight of 1970. -/
def midnightUIEvent : UIEvent := mkTimedUIEvent "midnight" 84600000 88200000

/-- C7 counterexample: an event starting exactly at 23:59:59.999 of day D
(ending later) satisfies the claimed membership test
`start < dayEnd(D) ∧ end > dayStart(D)` with `dayEnd` the next local
midnight, yet `filterUIEventsByDay` excludes it from day D, because the
code's `dayEnd` is 23:59:59.999 itself and the comparison is strict. -/
theorem C7_counterexample :
    (edgeUIEvent.start_date < localMidnight 0 0 + dayMs ∧
        edgeUIEvent.end_date > localMidnight 0 0) ∧
      (filterUIEventsByDay 0 [edgeUIEvent] 0).1 = [] ∧
      (filterUIEventsByDay 0 [edgeUIEvent] 0).2 = [] := by
  refine ⟨⟨by decide, by decide⟩, by decide, by decide⟩

/-- C7 amended: an event belongs to the partition of day D iff
`event.start < dayStart(D) + 86399999` (that is, strictly before
23:59:59.999 of D, one millisecond short of the next local midnight) and
`event.end > dayStart(D)`; under that corrected boundary the rest of the
claim stands, in particular an event spanning 23:30–00:30 appears in both
day D and day D+1. -/
theorem C7_amended :
    (∀ (tz : Int) (events : List UIEvent) (date : Int) (e : UIEvent),
      (e ∈ (filterUIEventsByDay tz events date).1 ∨
          e ∈ (filterUIEventsByDay tz events date).2) ↔
        (e ∈ events ∧ e.start_date < localMidnight tz date + 86399999 ∧
          e.end_date > localMidnight tz date)) ∧
    (∀ (tz : Int) (events : List UIEvent) (d : Int) (e : UIEvent),
      e ∈ events → localMidnight tz d = d → e.start_date = d + 84600000 →
      e.end_date = d + 88200000 → e.is_all_day = false →
      e ∈ (filterUIEventsByDay tz events d).2 ∧
        e ∈ (filterUIEventsByDay tz events (d + dayMs)).2) := by
  have hmain : ∀ (tz : Int) (events : List UIEvent) (date : Int) (e : UIEvent),
      (e ∈ (filterUIEventsByDay tz events date).1 ∨
          e ∈ (filterUIEventsByDay tz events date).2) ↔
        (e ∈ events ∧ e.start_date < localMidnight tz date + 86399999 ∧
          e.end_date > localMidnight tz date) := by
    intro tz events date e
    unfold filterUIEventsByDay
    simp only [List.mem_filter, List.filter_filter]
    cases hb : e.is_all_day <;>
      simp [hb, List.mem_filter, and_assoc, gt_iff_lt]
  refine ⟨hmain, ?_⟩
  intro tz events d e hmem hmid hs hend hall
  have hmid2 : localMidnight tz (d + dayMs) = d + dayMs := by
    unfold localMidnight dayMs at hmid ⊢
    rw [Int.fdiv_eq_ediv _ (by norm_num)] at hmid ⊢
    omega
  constructor
  · have h := (hmain tz events d e).mpr
      ⟨hmem, by rw [hmid]; unfold dayMs at *; omega, by rw [hmid]; omega⟩
    rcases h with h | h
    · exfalso
      have := (List.mem_filter.mp h).2
      rw [hall] at this
      cases this
    · exact h
  · have h := (hmain tz events (d + dayMs) e).mpr
      ⟨hmem, by rw [hmid2]; unfold dayMs at *; omega,
       by rw [hmid2]; unfold dayMs at *; omega⟩
    rcases h with h | h
    · exfalso
      have := (List.mem_filter.mp h).2
      rw [hall] at this
      cases this
    · exact h

/-- C7 witness: the amended theorem applied to the 23:30–00:30 event, which
lands in the timed partition of both 1970-01-01 and 1970-01-02. -/
theorem C7_witness :
    midnightUIEvent ∈ (filterUIEventsByDay 0 [midnightUIEvent] 0).2 ∧
      midnightUIEvent ∈ (filterUIEventsByDay 0 [midnightUIEvent] (0 + dayMs)).2 :=
  C7_amended.2 0 [midnightUIEvent] 0 midnightUIEvent (by decide) (by decide) (by decide)
    (by decide) (by decide)

/-! ## Claim C5 — classifier precedence for trusted organizations -/

theorem githubUrlTryAt_spec {l : List Char} {o : String} {ro : Option String}
    (h : githubUrlTryAt l = some (o, ro)) :
    o.data ≠ [] ∧ ∀ s, ro = some s → s.data ≠ [] := by
  simp only [githubUrlTryAt] at h
  split at h
  · split at h
    · cases h
    · rename_i horg
      split at h
      · split at h
        · rw [Option.some_inj] at h
          obtain ⟨rfl, rfl⟩ : (String.mk _ = o) ∧ ((none : Option String) = ro) :=
            ⟨congrArg Prod.fst h, congrArg Prod.snd h⟩
          exact ⟨by simpa using horg, fun s hs => by cases hs⟩
        · rename_i hrepo
          rw [Option.some_inj] at h
          obtain ⟨rfl, rfl⟩ : (String.mk _ = o) ∧ (some (String.mk _) = ro) :=
            ⟨congrArg Prod.fst h, congrArg Prod.snd h⟩
          refine ⟨by simpa using horg, ?_⟩
          rintro s hs
          rw [Option.some_inj] at hs
          subst hs
          simpa using hrepo
      · rw [Option.some_inj] at h
        obtain ⟨rfl, rfl⟩ : (String.mk _ = o) ∧ ((none : Option String) = ro) :=
          ⟨congrArg Prod.fst h, congrArg Prod.snd h⟩
        exact ⟨by simpa using horg, fun s hs => by cases hs⟩
  · cases h

theorem githubUrlScan_spec {l : List Char} {o : String} {ro : Option String}
    (h : githubUrlScan l = some (o, ro)) :
    o.data ≠ [] ∧ ∀ s, ro = some s → s.data ≠ [] := by
  induction l with
  | nil => cases h
  | cons c rest ih =>
    unfold githubUrlScan at h
    split at h
    · rename_i r hr
      rw [Option.some_inj] at h
      subst h
      exact githubUrlTryAt_spec hr
    · exact ih h

/-- C5 counterexample: a browsing record on the github.com domain whose URL
is a trusted org/repo page, but whose query string mentions
`docs.github.com`, matches the organization and repository captures and the
trusted list, yet `classifyDomain` refuses to classify it at all (the
substring guard `url.includes('docs.github.com')` fires), so it is neither
the repository bucket nor anything else. -/
theorem C5_counterexample :
    githubUrlMatch "https://github.com/acme/widget?from=docs.github.com" =
        some ("acme", some "widget") ∧
      ["acme"].contains "acme" = true ∧
      classifyDomain "github.com" "https://github.com/acme/widget?from=docs.github.com"
        "" ["acme"] = none := by
  refine ⟨by decide, by decide, rfl⟩

/-- C5 amended: for a browsing record whose domain is github.com, whose URL
does not contain the substring `docs.github.com`, and whose URL matches
`github.com/org/repo` with the organization in the trusted list, the
classifier returns the repository bucket (`code_repo`) with the canonical
`org/repo` key — never the platform's generic `GitHub` fallback. -/
theorem C5_amended (domain url pageTitle : String) (orgs : List String) (org repo : String)
    (hdom : domain = "github.com")
    (hdocs : jsIncludes url "docs.github.com" = false)
    (hmatch : githubUrlMatch url = some (org, some repo))
    (horg : orgs.contains org = true) :
    (classifyDomain domain url pageTitle orgs).map (fun r => (r.1.type, r.2)) =
        some (BrowserAggregateType.code_repo, org ++ "/" ++ repo) ∧
      org ++ "/" ++ repo ≠ "GitHub" := by
  subst hdom
  have hspec := githubUrlScan_spec (l := url.data) hmatch
  have hrepo_ne : repo.data ≠ [] := hspec.2 repo rfl
  have hroot1 : (url == "https://github.com/") = false := by
    refine beq_eq_false_iff_ne.mpr fun hu => ?_
    rw [hu, (by decide : githubUrlMatch "https://github.com/" = none)] at hmatch
    cases hmatch
  have hroot2 : (url == "https://github.com") = false := by
    refine beq_eq_false_iff_ne.mpr fun hu => ?_
    rw [hu, (by decide : githubUrlMatch "https://github.com" = none)] at hmatch
    cases hmatch
  have hslash : org ++ "/" ++ repo ≠ "GitHub" := by
    intro heq
    have hmem : '/' ∈ (org ++ "/" ++ repo).data := by
      rw [String.data_append, String.data_append]
      simp [String.data]
    rw [heq] at hmem
    revert hmem
    decide
  refine ⟨?_, hslash⟩
  unfold classifyDomain
  rw [if_pos (by decide : (("github.com" : String) == "github.com") = true),
    if_neg (by rw [hdocs, hroot1, hroot2]; decide)]
  rw [hmatch]
  have hrepob : ((some repo).getD "" == "") = false := by
    refine beq_eq_false_iff_ne.mpr ?_
    simpa [Option.getD, String.ext_iff] using hrepo_ne
  dsimp only
  rw [if_pos (by rw [horg, hrepob]; decide : (orgs.contains org && !((some repo).getD "" == "")) = true)]
  rfl

/-- C5 witness: the amended theorem applied to a clean trusted org/repo
URL. -/
theorem C5_witness :
    (classifyDomain "github.com" "https://github.com/acme/widget" "" ["acme"]).map
        (fun r => (r.1.type, r.2)) =
        some (BrowserAggregateType.code_repo, "acme" ++ "/" ++ "widget") ∧
      "acme" ++ "/" ++ "widget" ≠ "GitHub" :=
  C5_amended "github.com" "https://github.com/acme/widget" "" ["acme"] "acme" "widget"
    rfl (by decide) (by decide) (by decide)

/-! ## Claim C8 — greedy layout packing -/

/-- Event A, 9:00–10:00 on 1970-01-01 UTC. -/
def eventA : UIEvent := mkTimedUIEvent "A" 32400000 36000000

/-- Event B, 9:30–10:30. -/
def eventB : UIEvent := mkTimedUIEvent "B" 34200000 37800000

/-- Event C, 10:00–11:00. -/
def eventC : UIEvent := mkTimedUIEvent "C" 36000000 39600000

/-- Whether an event can be packed into a column: the column's last event
ends at or before the event's start (an empty column — never produced —
accepts). -/
def fitsColumn (e : UIEvent) (c : List UIEvent) : Bool :=
  match c.getLast? with
  | some lastEvent => decide (lastEvent.end_date ≤ e.start_date)
  | none => true

theorem placeEvent_no_fit (cols : List (List UIEvent)) (e : UIEvent)
    (h : ∀ c ∈ cols, fitsColumn e c = false) : placeEvent cols e = cols ++ [[e]] := by
  induction cols with
  | nil => rfl
  | cons c rest ih =>
    have hc := h c (List.mem_cons_self c rest)
    unfold placeEvent
    cases hl : c.getLast? with
    | some lastEvent =>
      have hnle : ¬ lastEvent.end_date ≤ e.start_date := by
        intro hle
        rw [fitsColumn, hl] at hc
        simp [hle] at hc
      dsimp only
      rw [if_neg hnle, ih (fun c2 h2 => h c2 (List.mem_cons_of_mem c h2))]
      rfl
    | none =>
      exfalso
      rw [fitsColumn, hl] at hc
      cases hc

theorem placeEvent_first_fit (cols : List (List UIEvent)) (e : UIEvent) (i : Nat)
    (hlt : i < cols.length)
    (hfit : fitsColumn e (cols.getD i []) = true)
    (hbefore : ∀ j, j < i → fitsColumn e (cols.getD j []) = false) :
    placeEvent cols e = cols.set i (cols.getD i [] ++ [e]) := by
  induction cols generalizing i with
  | nil => simp at hlt
  | cons c rest ih =>
    cases i with
    | zero =>
      unfold placeEvent
      cases hl : c.getLast? with
      | some lastEvent =>
        have hle : lastEvent.end_date ≤ e.start_date := by
          have : fitsColumn e c = true := hfit
          rw [fitsColumn, hl] at this
          simpa using this
        dsimp only
        rw [if_pos hle]
        rfl
      | none => rfl
    | succ i2 =>
      have h0 : fitsColumn e c = false := hbefore 0 (Nat.succ_pos i2)
      unfold placeEvent
      cases hl : c.getLast? with
      | some lastEvent =>
        have hnle : ¬ lastEvent.end_date ≤ e.start_date := by
          intro hle
          rw [fitsColumn, hl] at h0
          simp [hle] at h0
        dsimp only
        rw [if_neg hnle,
          ih i2 (Nat.lt_of_succ_lt_succ hlt) hfit
            (fun j hj => hbefore (j + 1) (Nat.succ_lt_succ hj))]
        rfl
      | none =>
        exfalso
        rw [fitsColumn, hl] at h0
        cases h0

/-- C8: for the same-day events A 9:00–10:00, B 9:30–10:30, C 10:00–11:00,
the layout engine puts A and C in column 0 and B in column 1, reporting
total_columns = 2 on every block (C packs into A's column because A's end
equals C's start); and in general each event is appended to the FIRST
column whose last event ends at or before the event's start, or opens a new
column at the end when no column fits. -/
theorem C8_theorem :
    (((calculateEventPositions 0 [eventA, eventB, eventC]).map
        fun b => (b.event.id, b.column, b.totalColumns)) =
      [("A", 0, 2), ("C", 0, 2), ("B", 1, 2)]) ∧
    (∀ (cols : List (List UIEvent)) (e : UIEvent),
      ((∀ c ∈ cols, fitsColumn e c = false) → placeEvent cols e = cols ++ [[e]]) ∧
      (∀ i, i < cols.length → fitsColumn e (cols.getD i []) = true →
        (∀ j, j < i → fitsColumn e (cols.getD j []) = false) →
        placeEvent cols e = cols.set i (cols.getD i [] ++ [e]))) :=
  ⟨by decide,
   fun cols e =>
     ⟨placeEvent_no_fit cols e,
      fun i h1 h2 h3 => placeEvent_first_fit cols e i h1 h2 h3⟩⟩

/-- C8 witness: the general packing rule applied concretely — B opens a new
column next to A, C packs into A's column. -/
theorem C8_witness :
    placeEvent [[eventA]] eventB = [[eventA], [eventB]] ∧
      placeEvent [[eventA]] eventC = [[eventA, eventC]] :=
  ⟨(C8_theorem.2 [[eventA]] eventB).1 (by decide),
   (C8_theorem.2 [[eventA]] eventC).2 0 (by decide) (by decide)
     (fun j hj => absurd hj (Nat.not_lt_zero j))⟩

/-! ## Claim C9 — layout geometry -/

theorem insertUIByStart_perm (e : UIEvent) (l : List UIEvent) :
    (insertUIByStart e l).Perm (e :: l) := by
  induction l with
  | nil => exact List.Perm.refl _
  | cons b rest ih =>
    unfold insertUIByStart
    by_cases hb : b.start_date ≤ e.start_date
    · rw [if_pos hb]
      exact (ih.cons b).trans (List.Perm.swap e b rest)
    · rw [if_neg hb]

theorem sortUIByStart_perm (l : List UIEvent) : (sortUIByStart l).Perm l := by
  suffices h : ∀ acc : List UIEvent,
      (l.foldl (fun acc e => insertUIByStart e acc) acc).Perm (acc ++ l) by
    simpa using h []
  induction l with
  | nil => intro acc; simp
  | cons x rest ih =>
    intro acc
    simp only [List.foldl_cons]
    refine ((ih (insertUIByStart x acc)).trans
      (List.Perm.append_right rest (insertUIByStart_perm x acc))).trans ?_
    simp only [List.cons_append]
    exact List.perm_middle.symm

theorem placeEvent_flatten_perm (cols : List (List UIEvent)) (e : UIEvent) :
    (placeEvent cols e).flatten.Perm (e :: cols.flatten) := by
  induction cols with
  | nil => simp [placeEvent]
  | cons c rest ih =>
    unfold placeEvent
    cases hl : c.getLast? with
    | some lastEvent =>
      by_cases hle : lastEvent.end_date ≤ e.start_date
      · dsimp only
        rw [if_pos hle]
        simp only [List.flatten_cons, List.append_assoc, List.singleton_append]
        exact List.perm_middle
      · dsimp only
        rw [if_neg hle]
        simp only [List.flatten_cons]
        refine ((ih.append_left c).trans ?_)
        exact List.perm_middle
    | none =>
      dsimp only
      simp only [List.flatten_cons, List.append_assoc, List.singleton_append]
      exact List.perm_middle

theorem layoutColumns_flatten_perm (events : List UIEvent) :
    (layoutColumns events).flatten.Perm events := by
  unfold layoutColumns
  suffices h : ∀ (l : List UIEvent) (cols : List (List UIEvent)),
      (l.foldl placeEvent cols).flatten.Perm (cols.flatten ++ l) by
    exact ((h (sortUIByStart events) []).trans (by simp)).trans (sortUIByStart_perm events)
  intro l
  induction l with
  | nil => intro cols; simp
  | cons x rest ih =>
    intro cols
    simp only [List.foldl_cons]
    refine (ih (placeEvent cols x)).trans ?_
    refine (List.Perm.append_right rest (placeEvent_flatten_perm cols x)).trans ?_
    simp only [List.cons_append]
    exact List.perm_middle.symm

theorem mem_calculateEventPositions {tz : Int} {events : List UIEvent} {b : EventBlock} :
    b ∈ calculateEventPositions tz events ↔
      ∃ ic ∈ (layoutColumns events).enum, ∃ e ∈ ic.2,
        b = mkEventBlock tz e ic.1 (layoutColumns events).length := by
  unfold calculateEventPositions
  rw [List.mem_flatMap]
  constructor
  · rintro ⟨ic, hic, hb⟩
    rw [List.mem_map] at hb
    obtain ⟨e, he, rfl⟩ := hb
    exact ⟨ic, hic, e, he, rfl⟩
  · rintro ⟨ic, hic, e, he, rfl⟩
    exact ⟨ic, hic, List.mem_map.mpr ⟨e, he, rfl⟩⟩

theorem clockHour_mul_sixty (tz t : Int) :
    clockHour tz t * 60 = ((getHoursOf tz t * 60 + getMinutesOf tz t : Int) : ℚ) := by
  unfold clockHour
  push_cast
  ring

theorem clockHour_height_cast (tz s t : Int) :
    max ((clockHour tz t - clockHour tz s) * 60) 30 =
      ((max ((getHoursOf tz t * 60 + getMinutesOf tz t) -
        (getHoursOf tz s * 60 + getMinutesOf tz s)) 30 : Int) : ℚ) := by
  push_cast
  congr 1
  unfold clockHour
  ring

/-- Modelled from the spec's geometry formula: the height an event of a
given true duration should get (`max(duration_hours × HOUR_HEIGHT,
MIN_BLOCK_HEIGHT)`). -/
def specSpanHeight (e : UIEvent) : ℚ :=
  max (((e.end_date - e.start_date : Int) : ℚ) / 3600000 * 60) 30

/-- C9 counterexample: the 23:30–00:30 event is rendered with height 30 (the
code's `endHour - startHour` is −23 across midnight, collapsing to the
minimum height), while the claimed formula from the event's true one-hour
duration demands height 60. -/
theorem C9_counterexample :
    ((calculateEventPositions 0 [midnightUIEvent]).map fun b => b.height) = [30] ∧
      specSpanHeight midnightUIEvent = 60 ∧ (30 : ℚ) ≠ 60 := by
  refine ⟨?_, ?_, by norm_num⟩
  · have hred : calculateEventPositions 0 [midnightUIEvent] =
        [mkEventBlock 0 midnightUIEvent 0 1] := rfl
    rw [hred]
    show [max ((clockHour 0 midnightUIEvent.end_date -
      clockHour 0 midnightUIEvent.start_date) * 60) 30] = [30]
    rw [clockHour_height_cast]
    norm_num [(by decide : getHoursOf 0 midnightUIEvent.end_date = 0),
      (by decide : getMinutesOf 0 midnightUIEvent.end_date = 30),
      (by decide : getHoursOf 0 midnightUIEvent.start_date = 23),
      (by decide : getMinutesOf 0 midnightUIEvent.start_date = 30)]
  · unfold specSpanHeight
    norm_num [(by decide : midnightUIEvent.end_date - midnightUIEvent.start_date = 3600000)]

/-- C9 amended: every block the layout engine emits carries its own event's
geometry — `top` is the event's local wall-clock start (hours plus
minutes/60, seconds dropped) times HOUR_HEIGHT = 60; `height` is
`max((endClock − startClock) × 60, 30)` computed from wall-clock
hours-of-day, which across a midnight boundary is negative and collapses to
the 30-pixel minimum (NOT the true duration the original claim states);
`totalColumns` is the day's final column count; and the DayView derives
`left = column × 100% / totalColumns` and `width = 100% / totalColumns`.
The block's event is one of the input events. -/
theorem C9_amended (tz : Int) (events : List UIEvent) (b : EventBlock)
    (hmem : b ∈ calculateEventPositions tz events) :
    b.event ∈ events ∧
      b.top = clockHour tz b.event.start_date * 60 ∧
      b.height = max ((clockHour tz b.event.end_date -
        clockHour tz b.event.start_date) * 60) 30 ∧
      b.totalColumns = (layoutColumns events).length ∧
      dayViewGeometry b = ((b.column : ℚ) * 100 / (b.totalColumns : ℚ),
        100 / (b.totalColumns : ℚ)) := by
  obtain ⟨ic, hic, e, he, rfl⟩ := mem_calculateEventPositions.mp hmem
  refine ⟨?_, rfl, rfl, rfl, rfl⟩
  have hc := List.mem_enum hic
  have hcol : ic.2 ∈ layoutColumns events := by
    rw [hc.2]
    exact List.getElem_mem hc.1
  exact (layoutColumns_flatten_perm events).mem_iff.mp
    (List.mem_flatten.mpr ⟨ic.2, hcol, he⟩)

/-- C9 witness: the amended theorem applied to the midnight-crossing event's
block. -/
theorem C9_witness :
    (mkEventBlock 0 midnightUIEvent 0 1).event ∈ [midnightUIEvent] ∧
      (mkEventBlock 0 midnightUIEvent 0 1).top =
        clockHour 0 midnightUIEvent.start_date * 60 ∧
      (mkEventBlock 0 midnightUIEvent 0 1).height =
        max ((clockHour 0 midnightUIEvent.end_date -
          clockHour 0 midnightUIEvent.start_date) * 60) 30 ∧
      (mkEventBlock 0 midnightUIEvent 0 1).totalColumns =
        (layoutColumns [midnightUIEvent]).length ∧
      dayViewGeometry (mkEventBlock 0 midnightUIEvent 0 1) =
        (((mkEventBlock 0 midnightUIEvent 0 1).column : ℚ) * 100 /
          ((mkEventBlock 0 midnightUIEvent 0 1).totalColumns : ℚ),
         100 / ((mkEventBlock 0 midnightUIEvent 0 1).totalColumns : ℚ)) :=
  C9_amended 0 [midnightUIEvent] (mkEventBlock 0 midnightUIEvent 0 1)
    (List.mem_singleton_self _)

/-! ## Claim C10 — implicit trusted-org augmentation -/

theorem discoveredGitOrgs_append_none {l : List StoredEvent} {e : StoredEvent}
    (h : payloadRepoPath e = none) :
    discoveredGitOrgs (l ++ [e]) = discoveredGitOrgs l := by
  simp only [discoveredGitOrgs, List.foldl_append, List.foldl_cons, List.foldl_nil, h]

theorem discoveredGitOrgs_append_some {l : List StoredEvent} {e : StoredEvent} {p : String}
    (h : payloadRepoPath e = some p) :
    discoveredGitOrgs (l ++ [e]) =
      (if p == "" then discoveredGitOrgs l
       else addOrg (discoveredGitOrgs l) (firstSeg p)) := by
  simp only [discoveredGitOrgs, List.foldl_append, List.foldl_cons, List.foldl_nil, h]

theorem mem_discoveredGitOrgs {l : List StoredEvent} {o : String} :
    o ∈ discoveredGitOrgs l ↔
      ∃ e ∈ l, ∃ p, payloadRepoPath e = some p ∧ p ≠ "" ∧ firstSeg p = o := by
  induction l using List.reverseRecOn with
  | nil => simp [discoveredGitOrgs]
  | append_singleton l e ih =>
    cases h : payloadRepoPath e with
    | none =>
      rw [discoveredGitOrgs_append_none h, ih]
      constructor
      · rintro ⟨x, hx, p, hp, hpne, hseg⟩
        exact ⟨x, List.mem_append.mpr (Or.inl hx), p, hp, hpne, hseg⟩
      · rintro ⟨x, hx, p, hp, hpne, hseg⟩
        rcases List.mem_append.mp hx with hx | hx
        · exact ⟨x, hx, p, hp, hpne, hseg⟩
        · rw [List.mem_singleton] at hx
          subst hx
          rw [h] at hp
          cases hp
    | some p =>
      rw [discoveredGitOrgs_append_some h]
      by_cases hp0 : p = ""
      · rw [if_pos (beq_iff_eq.mpr hp0), ih]
        constructor
        · rintro ⟨x, hx, q, hq, hqne, hseg⟩
          exact ⟨x, List.mem_append.mpr (Or.inl hx), q, hq, hqne, hseg⟩
        · rintro ⟨x, hx, q, hq, hqne, hseg⟩
          rcases List.mem_append.mp hx with hx | hx
          · exact ⟨x, hx, q, hq, hqne, hseg⟩
          · rw [List.mem_singleton] at hx
            subst hx
            rw [h] at hq
            rw [Option.some_inj] at hq
            exact absurd (hq ▸ hp0) hqne
      · rw [if_neg (by simpa using hp0), mem_addOrg, ih]
        constructor
        · rintro (⟨x, hx, q, hq, hqne, hseg⟩ | rfl)
          · exact ⟨x, List.mem_append.mpr (Or.inl hx), q, hq, hqne, hseg⟩
          · exact ⟨e, List.mem_append.mpr (Or.inr (List.mem_singleton_self e)), p, h, hp0, rfl⟩
        · rintro ⟨x, hx, q, hq, hqne, hseg⟩
          rcases List.mem_append.mp hx with hx | hx
          · exact Or.inl ⟨x, hx, q, hq, hqne, hseg⟩
          · rw [List.mem_singleton] at hx
            subst hx
            rw [h] at hq
            rw [Option.some_inj] at hq
            subst hq
            exact Or.inr hseg.symm

theorem browser_agg_members_classified {l : List StoredEvent} {orgs : List String} {a : UIEvent}
    (ha : a ∈ aggregateBrowserEvents l orgs) :
    ∀ x ∈ a.activities, browserKeyOf orgs x ≠ none := by
  obtain ⟨⟨k, vs⟩, hkv, hne, rfl⟩ := mem_aggregateBrowserEvents.mp ha
  intro x hx
  rw [mkBrowserAggregate_activities] at hx
  have hx2 := (sortByStart_perm vs).mem_iff.mp hx
  have hk := (member_of_group hkv hx2).2
  rw [hk]
  simp

theorem browserKeyOf_none_of_known {orgs : List String} {v : StoredEvent}
    (h : ∀ b, parseBrowserEventData v = some b → isKnownGitHubRepo b.url orgs = true) :
    browserKeyOf orgs v = none := by
  unfold browserKeyOf
  by_cases ht : (v.event_type == "browser_history") = true
  · rw [if_pos ht]
    cases hp : parseBrowserEventData v with
    | none => rfl
    | some b =>
      have hknown := h b hp
      have hc : classifyBrowserData b.domain b.url (b.page_title.getD "") orgs = none := by
        unfold classifyBrowserData
        rw [if_pos hknown]
      dsimp only
      rw [hc]
  · rw [if_neg ht]

/-- A browsing visit to github.com/acme/widget. -/
def githubAcmeVisit : StoredEvent :=
  mkStored 9 "browser_history" 40000000 40060000
    (some (mkBrowserTSD "https://github.com/acme/widget" "github.com" (some "widget") none))

/-- C10: `aggregateAllEvents` runs the browser (document/research)
aggregation with the caller's GitHub organization list silently extended by
`discoveredGitOrgs` — exactly the first path segments of every (truthy)
repository_path found on any record's payload; consequently a browsing
visit whose URL matches github.com/org/repo is excluded from every
document/research aggregate whenever any input record carries a
repository_path whose first segment is that org, even if the caller's list
does not contain it. -/
theorem C10_theorem (G : List String) (l : List StoredEvent) :
    (aggregateAllEvents G l =
      (l.filter (fun e => e.event_type == "calendar")).map calendarStoredEventToUIEvent ++
        (aggregateRepositoryEvents l).1 ++
        aggregateBrowserEvents l (G ++ discoveredGitOrgs l)) ∧
    (∀ o : String, o ∈ discoveredGitOrgs l ↔
      ∃ e ∈ l, ∃ p, payloadRepoPath e = some p ∧ p ≠ "" ∧ firstSeg p = o) ∧
    (∀ (v : StoredEvent) (b : BrowserHistoryEventData) (org repo : String)
        (e : StoredEvent) (p : String),
      e ∈ l → payloadRepoPath e = some p → p ≠ "" → firstSeg p = org →
      parseBrowserEventData v = some b →
      githubUrlMatch b.url = some (org, some repo) →
      ∀ a ∈ aggregateBrowserEvents l (G ++ discoveredGitOrgs l), v ∉ a.activities) := by
  refine ⟨rfl, fun o => mem_discoveredGitOrgs, ?_⟩
  intro v b org repo e p he hp hpne hseg hpb hmatch a ha hv
  have horg : org ∈ G ++ discoveredGitOrgs l :=
    List.mem_append.mpr (Or.inr (mem_discoveredGitOrgs.mpr ⟨e, he, p, hp, hpne, hseg⟩))
  have hknown : isKnownGitHubRepo b.url (G ++ discoveredGitOrgs l) = true := by
    unfold isKnownGitHubRepo
    rw [hmatch]
    have hcont : (G ++ discoveredGitOrgs l).contains org = true := List.elem_iff.mpr horg
    dsimp only
    rw [hcont]
    rfl
  have hnone : browserKeyOf (G ++ discoveredGitOrgs l) v = none :=
    browserKeyOf_none_of_known (fun b2 hb2 => by
      rw [hpb] at hb2
      rw [Option.some_inj] at hb2
      subst hb2
      exact hknown)
  exact browser_agg_members_classified ha v hv hnone

/-- C10 witness: with no caller-provided orgs, a git record on acme/widget
makes a github.com/acme/widget visit vanish from the document/research
aggregation (here: from the Google-Docs aggregate of the same input). -/
theorem C10_witness :
    "acme" ∈ discoveredGitOrgs [repoVisit2300, googleDocVisit, githubAcmeVisit] ∧
      githubAcmeVisit ∉ (mkBrowserAggregate "document:docs.google.com:1970-01-01:Design Doc"
        [googleDocVisit]).activities :=
  ⟨((C10_theorem [] [repoVisit2300, googleDocVisit, githubAcmeVisit]).2.1 "acme").mpr
      ⟨repoVisit2300, by decide, "acme/widget", by decide, by decide, by decide⟩,
   (C10_theorem [] [repoVisit2300, googleDocVisit, githubAcmeVisit]).2.2
     githubAcmeVisit
     { url := "https://github.com/acme/widget", domain := "github.com",
       page_title := some "widget", visit_count := 1 }
     "acme" "widget" repoVisit2300 "acme/widget"
     (by decide) (by decide) (by decide) (by decide) (by decide) (by decide)
     (mkBrowserAggregate "document:docs.google.com:1970-01-01:Design Doc" [googleDocVisit])
     (by decide)⟩

/-! ## Claim C1 — coverage invariant -/

theorem countP_keyed_le_one {γ : Type} (L : List (String × List StoredEvent))
    (mk : String → List StoredEvent → γ) (p : γ → Bool)
    (hnd : (L.map Prod.fst).Nodup) (k0 : String)
    (hp : ∀ kv ∈ L, p (mk kv.1 kv.2) = true → kv.1 = k0) :
    (L.map fun kv => mk kv.1 kv.2).countP p ≤ 1 := by
  induction L with
  | nil => simp
  | cons kv rest ih =>
    simp only [List.map_cons, List.countP_cons]
    by_cases hpa : p (mk kv.1 kv.2) = true
    · have ha : kv.1 = k0 := hp kv (List.mem_cons_self kv rest) hpa
      have hzero : (rest.map fun kv => mk kv.1 kv.2).countP p = 0 := by
        rw [List.countP_eq_zero]
        intro b hb
        rw [List.mem_map] at hb
        obtain ⟨kv2, hkv2, rfl⟩ := hb
        intro hpk
        have h2 : kv2.1 = k0 := hp kv2 (List.mem_cons_of_mem kv hkv2) hpk
        have : kv.1 ∈ rest.map Prod.fst :=
          List.mem_map.mpr ⟨kv2, hkv2, by rw [h2, ha]⟩
        exact (List.nodup_cons.mp (by simpa using hnd)).1 this
      simp [hzero, hpa]
    · have hfalse : (p (mk kv.1 kv.2) : Bool) = false := by simpa using hpa
      rw [hfalse]
      simpa using ih (by simpa using (List.nodup_cons.mp (by simpa using hnd)).2)
        (fun kv2 h2 => hp kv2 (List.mem_cons_of_mem kv h2))

theorem buildGroups_keys (keyOf : StoredEvent → Option String) (l : List StoredEvent) :
    (buildGroups keyOf l).map Prod.fst = groupKeys keyOf l := by
  rw [buildGroups_eq, List.map_map]
  have hcomp : (Prod.fst ∘ fun k => (k, l.filter fun x => keyOf x == some k)) = id := rfl
  rw [hcomp, List.map_id]

theorem repo_countP_le_one (l : List StoredEvent) (r : StoredEvent) :
    ((aggregateRepositoryEvents l).1.countP fun a => a.activities.contains r) ≤ 1 := by
  show ((buildGroups repoKeyOf l).map fun kv => mkRepoAggregate kv.1 kv.2).countP _ ≤ 1
  cases hr : repoKeyOf r with
  | none =>
    rw [Nat.le_one_iff_eq_zero_or_eq_one]
    left
    rw [List.countP_eq_zero]
    intro a ha
    rw [List.mem_map] at ha
    obtain ⟨kv, hkv, rfl⟩ := ha
    intro hc
    have hmem : r ∈ (mkRepoAggregate kv.1 kv.2).activities := List.elem_iff.mp hc
    have hvs : r ∈ kv.2 :=
      (mkRepoAggregate_activities_perm kv.1 kv.2 (group_member_types hkv)).mem_iff.mp hmem
    have := (member_of_group hkv hvs).2
    rw [hr] at this
    cases this
  | some k0 =>
    refine countP_keyed_le_one _ _ _ ?_ k0 ?_
    · rw [buildGroups_keys]
      exact groupKeys_nodup repoKeyOf l
    · intro kv hkv hc
      have hmem : r ∈ (mkRepoAggregate kv.1 kv.2).activities := List.elem_iff.mp hc
      have hvs : r ∈ kv.2 :=
        (mkRepoAggregate_activities_perm kv.1 kv.2 (group_member_types hkv)).mem_iff.mp hmem
      have hk := (member_of_group hkv hvs).2
      rw [hr] at hk
      exact (Option.some_inj.mp hk.symm)

theorem filterMap_guard_eq_map_filter {γ : Type} (g : String × List StoredEvent → γ)
    (L : List (String × List StoredEvent)) :
    (L.filterMap fun kv => if kv.2.isEmpty then none else some (g kv)) =
      (L.filter fun kv => !kv.2.isEmpty).map g := by
  induction L with
  | nil => rfl
  | cons kv rest ih =>
    obtain ⟨k, vs⟩ := kv
    cases vs with
    | nil => simpa [List.filterMap_cons, List.filter_cons] using ih
    | cons x xs => simpa [List.filterMap_cons, List.filter_cons] using ih

theorem aggregateBrowserEvents_eq (l : List StoredEvent) (orgs : List String) :
    aggregateBrowserEvents l orgs =
      ((buildGroups (browserKeyOf orgs) l).filter fun kv => !kv.2.isEmpty).map
        fun kv => mkBrowserAggregate kv.1 kv.2 := by
  unfold aggregateBrowserEvents
  exact filterMap_guard_eq_map_filter (fun kv => mkBrowserAggregate kv.1 kv.2) _

theorem browser_member_of_mem {l : List StoredEvent} {orgs : List String} {a : UIEvent}
    {r : StoredEvent} (ha : a ∈ aggregateBrowserEvents l orgs) (hr : r ∈ a.activities) :
    r ∈ l ∧ browserKeyOf orgs r ≠ none := by
  obtain ⟨⟨k, vs⟩, hkv, hne, rfl⟩ := mem_aggregateBrowserEvents.mp ha
  rw [mkBrowserAggregate_activities] at hr
  have hvs := (sortByStart_perm vs).mem_iff.mp hr
  have h := member_of_group hkv hvs
  exact ⟨h.1, by rw [h.2]; simp⟩

theorem browser_countP_le_one (l : List StoredEvent) (orgs : List String) (r : StoredEvent) :
    ((aggregateBrowserEvents l orgs).countP fun a => a.activities.contains r) ≤ 1 := by
  rw [aggregateBrowserEvents_eq]
  cases hr : browserKeyOf orgs r with
  | none =>
    rw [Nat.le_one_iff_eq_zero_or_eq_one]
    left
    rw [List.countP_eq_zero]
    intro a ha
    rw [List.mem_map] at ha
    obtain ⟨kv, hkv, rfl⟩ := ha
    intro hc
    have hmem : r ∈ (mkBrowserAggregate kv.1 kv.2).activities := List.elem_iff.mp hc
    rw [mkBrowserAggregate_activities] at hmem
    have hvs := (sortByStart_perm kv.2).mem_iff.mp hmem
    have := (member_of_group (List.mem_of_mem_filter hkv) hvs).2
    rw [hr] at this
    cases this
  | some k0 =>
    refine countP_keyed_le_one _ _ _ ?_ k0 ?_
    · have hsub : ((buildGroups (browserKeyOf orgs) l).filter fun kv => !kv.2.isEmpty).map
          Prod.fst |>.Sublist ((buildGroups (browserKeyOf orgs) l).map Prod.fst) :=
        (List.filter_sublist _).map Prod.fst
      exact List.Nodup.sublist hsub (by rw [buildGroups_keys]; exact groupKeys_nodup _ l)
    · intro kv hkv hc
      have hmem : r ∈ (mkBrowserAggregate kv.1 kv.2).activities := List.elem_iff.mp hc
      rw [mkBrowserAggregate_activities] at hmem
      have hvs := (sortByStart_perm kv.2).mem_iff.mp hmem
      have hk := (member_of_group (List.mem_of_mem_filter hkv) hvs).2
      rw [hr] at hk
      exact (Option.some_inj.mp hk.symm)

theorem browser_countP_zero_of_none (l : List StoredEvent) (orgs : List String)
    (r : StoredEvent) (hr : browserKeyOf orgs r = none) :
    ((aggregateBrowserEvents l orgs).countP fun a => a.activities.contains r) = 0 := by
  rw [List.countP_eq_zero]
  intro a ha hc
  have hmem : r ∈ a.activities := List.elem_iff.mp hc
  exact (browser_member_of_mem ha hmem).2 hr

theorem repo_countP_zero_of_none (l : List StoredEvent) (r : StoredEvent)
    (hr : repoKeyOf r = none) :
    (((aggregateRepositoryEvents l).1).countP fun a => a.activities.contains r) = 0 := by
  rw [List.countP_eq_zero]
  intro a ha hc
  have hmem : r ∈ a.activities := List.elem_iff.mp hc
  obtain ⟨kv, hkv, rfl⟩ := mem_aggregateRepositoryEvents.mp ha
  have hvs : r ∈ kv.2 :=
    (mkRepoAggregate_activities_perm kv.1 kv.2 (group_member_types hkv)).mem_iff.mp hmem
  have := (member_of_group hkv hvs).2
  rw [hr] at this
  cases this

theorem calendar_countP_zero (l : List StoredEvent) (r : StoredEvent)
    (hr : r.event_type ≠ "calendar") :
    (((l.filter fun e => e.event_type == "calendar").map calendarStoredEventToUIEvent).countP
      fun a => a.activities.contains r) = 0 := by
  rw [List.countP_eq_zero]
  intro a ha hc
  rw [List.mem_map] at ha
  obtain ⟨e, he, rfl⟩ := ha
  have hmem : r ∈ (calendarStoredEventToUIEvent e).activities := List.elem_iff.mp hc
  have hre : r = e := by
    have : (calendarStoredEventToUIEvent e).activities = [e] := rfl
    rw [this, List.mem_singleton] at hmem
    exact hmem
  have := (List.mem_filter.mp he).2
  rw [← hre] at this
  exact hr (by simpa using this)

theorem repo_countP_zero_of_not_mem (l : List StoredEvent) (r : StoredEvent) (hr : r ∉ l) :
    (((aggregateRepositoryEvents l).1).countP fun a => a.activities.contains r) = 0 := by
  rw [List.countP_eq_zero]
  intro a ha hc
  have hmem : r ∈ a.activities := List.elem_iff.mp hc
  obtain ⟨kv, hkv, rfl⟩ := mem_aggregateRepositoryEvents.mp ha
  have hvs : r ∈ kv.2 :=
    (mkRepoAggregate_activities_perm kv.1 kv.2 (group_member_types hkv)).mem_iff.mp hmem
  exact hr (member_of_group hkv hvs).1

theorem browser_countP_zero_of_not_mem (l : List StoredEvent) (orgs : List String)
    (r : StoredEvent) (hr : r ∉ l) :
    ((aggregateBrowserEvents l orgs).countP fun a => a.activities.contains r) = 0 := by
  rw [List.countP_eq_zero]
  intro a ha hc
  have hmem : r ∈ a.activities := List.elem_iff.mp hc
  exact hr (browser_member_of_mem ha hmem).1

theorem parseBrowser_event_type {e : StoredEvent} {b : BrowserHistoryEventData}
    (h : parseBrowserEventData e = some b) : e.event_type = "browser_history" := by
  unfold parseBrowserEventData at h
  by_cases ht : (e.event_type == "browser_history") = true
  · simpa using ht
  · rw [if_neg ht] at h
    cases h

theorem payloadRepoPath_browser {e : StoredEvent} {b : BrowserHistoryEventData}
    (h : parseBrowserEventData e = some b) : payloadRepoPath e = b.repository_path := by
  have het := parseBrowser_event_type h
  unfold payloadRepoPath
  rw [het, if_neg (by decide), if_pos (by decide), h]
  rfl

/-- Consistency of the raw inputs that the coverage invariant needs: every
browsing record carrying a repository path has a github.com/org/repo URL
whose organization is the path's first segment (this is how the ingestion
collaborator populates repository_path). -/
def repoBrowserConsistent (l : List StoredEvent) : Prop :=
  ∀ e ∈ l, ∀ b, parseBrowserEventData e = some b →
    ∀ p, b.repository_path = some p → p ≠ "" →
      ∃ repo, githubUrlMatch b.url = some (firstSeg p, some repo)

/-- Payload of the counterexample visit: a collaborative-document URL that
nevertheless carries a repository path. -/
def repoPathDocVisit : StoredEvent :=
  mkStored 3 "browser_history" 50400000 50460000
    (some (mkBrowserTSD "https://docs.google.com/document/d/abc/edit" "docs.google.com"
      (some "Design Doc") (some "acme/widget")))

/-- C1 counterexample: a browsing record whose payload carries both a
repository path and a classifiable document URL appears in TWO
UnifiedTimelineEvents of `aggregateAllEvents` — the repository aggregate for
acme/widget and the Google-Docs document aggregate — violating the claimed
at-most-one coverage invariant.  (The only guard, `isKnownGitHubRepo`, fires
for github.com URLs only.) -/
theorem C1_counterexample :
    repoPathDocVisit.event_type = "browser_history" ∧
      ((aggregateAllEvents [] [repoPathDocVisit]).countP
        fun a => a.activities.contains repoPathDocVisit) = 2 :=
  ⟨rfl, by decide⟩

/-- C1 amended: PROVIDED every browsing record carrying a repository path has
a matching github.com/org/repo URL (org = first path segment), each raw
record of kind version_control (git) or browsing appears in the members of
at most one UnifiedTimelineEvent produced by `aggregateAllEvents`; and a
browsing record that could belong to both a repository aggregate and a
browsing-only aggregate ends up only in the repository aggregate. -/
theorem C1_amended (G : List String) (l : List StoredEvent)
    (hcons : repoBrowserConsistent l) :
    (∀ r : StoredEvent, r.event_type = "git" ∨ r.event_type = "browser_history" →
      ((aggregateAllEvents G l).countP fun a => a.activities.contains r) ≤ 1) ∧
    (∀ r ∈ l, ∀ b, parseBrowserEventData r = some b →
      ∀ p, b.repository_path = some p → p ≠ "" →
      ((∃ a ∈ (aggregateRepositoryEvents l).1, r ∈ a.activities) ∧
        ∀ a ∈ aggregateBrowserEvents l (G ++ (aggregateRepositoryEvents l).2),
          r ∉ a.activities)) := by
  have hdisc : (aggregateRepositoryEvents l).2 = discoveredGitOrgs l := rfl
  have hexcl : ∀ r ∈ l, ∀ b, parseBrowserEventData r = some b →
      ∀ p, b.repository_path = some p → p ≠ "" →
      browserKeyOf (G ++ discoveredGitOrgs l) r = none := by
    intro r hrl b hb p hp hpne
    obtain ⟨repo, hmatch⟩ := hcons r hrl b hb p hp hpne
    have hpay : payloadRepoPath r = some p := by
      rw [payloadRepoPath_browser hb, hp]
    have horg : firstSeg p ∈ G ++ discoveredGitOrgs l :=
      List.mem_append.mpr (Or.inr (mem_discoveredGitOrgs.mpr ⟨r, hrl, p, hpay, hpne, rfl⟩))
    refine browserKeyOf_none_of_known (fun b2 hb2 => ?_)
    rw [hb] at hb2
    obtain rfl : b = b2 := Option.some_inj.mp hb2
    unfold isKnownGitHubRepo
    rw [hmatch]
    dsimp only
    have hcont : (G ++ discoveredGitOrgs l).contains (firstSeg p) = true :=
      List.elem_iff.mpr horg
    rw [hcont]
    rfl
  have hkeyOf : ∀ r ∈ l, ∀ b, parseBrowserEventData r = some b →
      ∀ p, b.repository_path = some p → p ≠ "" →
      repoKeyOf r = some (p ++ ":" ++ formatDateKey r.start_date) := by
    intro r hrl b hb p hp hpne
    unfold repoKeyOf
    rw [payloadRepoPath_browser hb, hp]
    have hpb : (p == "") = false := beq_eq_false_iff_ne.mpr hpne
    simp [hpb]
  constructor
  · intro r hkind
    have hagg : aggregateAllEvents G l =
        ((l.filter fun e => e.event_type == "calendar").map calendarStoredEventToUIEvent ++
          (aggregateRepositoryEvents l).1) ++
          aggregateBrowserEvents l (G ++ discoveredGitOrgs l) := rfl
    rw [hagg, List.countP_append, List.countP_append]
    have hcal : ((l.filter fun e => e.event_type == "calendar").map
        calendarStoredEventToUIEvent).countP (fun a => a.activities.contains r) = 0 := by
      refine calendar_countP_zero l r ?_
      rcases hkind with h | h <;> rw [h] <;> decide
    rw [hcal]
    rcases hkind with hgit | hbrowser
    · have hb0 : browserKeyOf (G ++ discoveredGitOrgs l) r = none := by
        unfold browserKeyOf
        rw [hgit, if_neg (by decide)]
      rw [browser_countP_zero_of_none l _ r hb0]
      have := repo_countP_le_one l r
      omega
    · by_cases hrl : r ∈ l
      · cases hpb : parseBrowserEventData r with
        | none =>
          have hrk : repoKeyOf r = none := by
            unfold repoKeyOf payloadRepoPath
            rw [hbrowser, if_neg (by decide), if_pos (by decide), hpb]
            rfl
          rw [repo_countP_zero_of_none l r hrk]
          have := browser_countP_le_one l (G ++ discoveredGitOrgs l) r
          omega
        | some b =>
          cases hpp : b.repository_path with
          | none =>
            have hrk : repoKeyOf r = none := by
              unfold repoKeyOf
              rw [payloadRepoPath_browser hpb, hpp]
            rw [repo_countP_zero_of_none l r hrk]
            have := browser_countP_le_one l (G ++ discoveredGitOrgs l) r
            omega
          | some p =>
            by_cases hpe : p = ""
            · have hrk : repoKeyOf r = none := by
                unfold repoKeyOf
                rw [payloadRepoPath_browser hpb, hpp]
                subst hpe
                rfl
              rw [repo_countP_zero_of_none l r hrk]
              have := browser_countP_le_one l (G ++ discoveredGitOrgs l) r
              omega
            · have hb0 := hexcl r hrl b hpb p hpp hpe
              rw [browser_countP_zero_of_none l _ r hb0]
              have := repo_countP_le_one l r
              omega
      · rw [repo_countP_zero_of_not_mem l r hrl,
          browser_countP_zero_of_not_mem l _ r hrl]
        omega
  · intro r hrl b hb p hp hpne
    constructor
    · have hkey := hkeyOf r hrl b hb p hp hpne
      obtain ⟨vs, hgv, hmem⟩ := exists_group_mem hrl hkey
      exact ⟨mkRepoAggregate (p ++ ":" ++ formatDateKey r.start_date) vs,
        mem_aggregateRepositoryEvents.mpr ⟨(_, vs), hgv, rfl⟩,
        (mkRepoAggregate_activities_perm _ vs (group_member_types hgv)).mem_iff.mpr hmem⟩
    · intro a ha hmem
      rw [hdisc] at ha
      exact (browser_member_of_mem ha hmem).2 (hexcl r hrl b hb p hp hpne)

/-- Payload of the consistent github visit used by the C1 witness. -/
def githubRepoPathData : BrowserHistoryEventData :=
  { url := "https://github.com/acme/widget", domain := "github.com",
    page_title := some "widget", visit_count := 1, repository_path := some "acme/widget" }

/-- A browsing visit to github.com/acme/widget carrying the matching
repository path. -/
def githubRepoPathVisit : StoredEvent :=
  mkStored 10 "browser_history" 41000000 41060000 (some (.browser githubRepoPathData))

/-- C1 witness: on a consistent input (a git record and a github.com
browsing visit for the same repository), the visit is counted at most once
overall, appears in a repository aggregate, and in no browsing-only
aggregate. -/
theorem C1_witness :
    (((aggregateAllEvents [] [repoVisit2300, githubRepoPathVisit]).countP
        fun a => a.activities.contains githubRepoPathVisit) ≤ 1) ∧
      (∃ a ∈ (aggregateRepositoryEvents [repoVisit2300, githubRepoPathVisit]).1,
        githubRepoPathVisit ∈ a.activities) ∧
      (∀ a ∈ aggregateBrowserEvents [repoVisit2300, githubRepoPathVisit]
          ([] ++ (aggregateRepositoryEvents [repoVisit2300, githubRepoPathVisit]).2),
        githubRepoPathVisit ∉ a.activities) := by
  have hcons : repoBrowserConsistent [repoVisit2300, githubRepoPathVisit] := by
    intro e he b hb p hp hpne
    have he2 : e = repoVisit2300 ∨ e = githubRepoPathVisit := by simpa using he
    rcases he2 with rfl | rfl
    · rw [show parseBrowserEventData repoVisit2300 = none from rfl] at hb
      cases hb
    · rw [show parseBrowserEventData githubRepoPathVisit = some githubRepoPathData from rfl] at hb
      obtain rfl : githubRepoPathData = b := Option.some_inj.mp hb
      rw [show githubRepoPathData.repository_path = some "acme/widget" from rfl] at hp
      obtain rfl : "acme/widget" = p := Option.some_inj.mp hp
      exact ⟨"widget", by decide⟩
  have h := C1_amended [] [repoVisit2300, githubRepoPathVisit] hcons
  refine ⟨h.1 githubRepoPathVisit (Or.inr rfl), ?_, ?_⟩
  · exact (h.2 githubRepoPathVisit (by decide) githubRepoPathData rfl "acme/widget" rfl
      (by decide)).1
  · exact (h.2 githubRepoPathVisit (by decide) githubRepoPathData rfl "acme/widget" rfl
      (by decide)).2

/-! ## Claim C4 — input-order determinism -/

/-- Order-insensitive signature of an aggregate: id, span, and the multiset
of members. -/
def aggregateSig (a : UIEvent) : String × Int × Int × Multiset StoredEvent :=
  (a.id, a.start_date, a.end_date, (a.activities : Multiset StoredEvent))

theorem mkBrowserAggregate_id (k : String) (vs : List StoredEvent) :
    (mkBrowserAggregate k vs).id = k := rfl

theorem mkRepoAggregate_activities (key : String) (vs : List StoredEvent) :
    (mkRepoAggregate key vs).activities =
      sortByStart (vs.filter fun e => e.event_type == "git") ++
        vs.filter (fun e => e.event_type == "browser_history") := rfl

theorem mkRepoAggregate_id (key : String) (vs : List StoredEvent) :
    (mkRepoAggregate key vs).id =
      "repo-" ++ jsJoin ':' ((jsSplit key ':').dropLast) ++ "-" ++
        toString (if commitFirstOf vs then jsMinD (vs.map fun e => e.start_date) - 1800000
          else jsMinD (vs.map fun e => e.start_date)) := rfl

theorem browserSig_congr (k : String) {vs₁ vs₂ : List StoredEvent} (h : vs₁.Perm vs₂) :
    aggregateSig (mkBrowserAggregate k vs₁) = aggregateSig (mkBrowserAggregate k vs₂) := by
  have hsp : ((sortByStart vs₁).map fun v => v.start_date).Perm
      ((sortByStart vs₂).map fun v => v.start_date) :=
    (((sortByStart_perm vs₁).trans h).trans (sortByStart_perm vs₂).symm).map _
  have hmin : jsMinD ((sortByStart vs₁).map fun v => v.start_date) =
      jsMinD ((sortByStart vs₂).map fun v => v.start_date) := jsMinD_perm hsp
  have hmax : jsMaxD ((sortByStart vs₁).map fun v => v.start_date) =
      jsMaxD ((sortByStart vs₂).map fun v => v.start_date) := jsMaxD_perm hsp
  have h1 : (mkBrowserAggregate k vs₁).start_date = (mkBrowserAggregate k vs₂).start_date := by
    rw [mkBrowserAggregate_start_date, mkBrowserAggregate_start_date, hmin]
  have h2 : (mkBrowserAggregate k vs₁).end_date = (mkBrowserAggregate k vs₂).end_date := by
    rw [mkBrowserAggregate_end_date, mkBrowserAggregate_end_date]
    simp only [hmin, hmax]
  have h3 : ((mkBrowserAggregate k vs₁).activities : Multiset StoredEvent) =
      ((mkBrowserAggregate k vs₂).activities : Multiset StoredEvent) := by
    rw [mkBrowserAggregate_activities, mkBrowserAggregate_activities]
    exact Multiset.coe_eq_coe.mpr (((sortByStart_perm vs₁).trans h).trans (sortByStart_perm vs₂).symm)
  unfold aggregateSig
  rw [mkBrowserAggregate_id, mkBrowserAggregate_id, h1, h2, h3]

theorem repoSig_congr (key : String) {vs₁ vs₂ : List StoredEvent} (h : vs₁.Perm vs₂)
    (hsortg : sortByStart (vs₁.filter fun e => e.event_type == "git") =
      sortByStart (vs₂.filter fun e => e.event_type == "git")) :
    aggregateSig (mkRepoAggregate key vs₁) = aggregateSig (mkRepoAggregate key vs₂) := by
  have hmin : jsMinD (vs₁.map fun e => e.start_date) = jsMinD (vs₂.map fun e => e.start_date) :=
    jsMinD_perm (h.map _)
  have hmax : jsMaxD (vs₁.map fun e => e.end_date) = jsMaxD (vs₂.map fun e => e.end_date) :=
    jsMaxD_perm (h.map _)
  have hcf : commitFirstOf vs₁ = commitFirstOf vs₂ := by
    unfold commitFirstOf
    rw [hsortg]
  have h1 : (mkRepoAggregate key vs₁).start_date = (mkRepoAggregate key vs₂).start_date := by
    rw [mkRepoAggregate_start_date, mkRepoAggregate_start_date, hcf, hmin]
  have h2 : (mkRepoAggregate key vs₁).end_date = (mkRepoAggregate key vs₂).end_date := by
    rw [mkRepoAggregate_end_date, mkRepoAggregate_end_date, hmax]
  have hid : (mkRepoAggregate key vs₁).id = (mkRepoAggregate key vs₂).id := by
    rw [mkRepoAggregate_id, mkRepoAggregate_id, hcf, hmin]
  have h3 : ((mkRepoAggregate key vs₁).activities : Multiset StoredEvent) =
      ((mkRepoAggregate key vs₂).activities : Multiset StoredEvent) := by
    rw [mkRepoAggregate_activities, mkRepoAggregate_activities, hsortg]
    exact Multiset.coe_eq_coe.mpr (List.Perm.append_left _ (h.filter _))
  unfold aggregateSig
  rw [hid, h1, h2, h3]

theorem gitStarts_nodup (l : List StoredEvent) (k : String) (hnd : l.Nodup)
    (hgit : ∀ e₁ e₂, e₁ ∈ l → e₂ ∈ l → e₁.event_type = "git" → e₂.event_type = "git" →
      repoKeyOf e₁ = repoKeyOf e₂ → repoKeyOf e₁ ≠ none →
      e₁.start_date = e₂.start_date → e₁ = e₂) :
    (((l.filter fun e => repoKeyOf e == some k).filter
      fun e => e.event_type == "git").map fun e => e.start_date).Nodup := by
  have hxsnd : ((l.filter fun e => repoKeyOf e == some k).filter
      fun e => e.event_type == "git").Nodup := (hnd.filter _).filter _
  have hpw : ((l.filter fun e => repoKeyOf e == some k).filter
      fun e => e.event_type == "git").Pairwise fun a b => a.start_date ≠ b.start_date := by
    refine List.Pairwise.imp_of_mem ?_ hxsnd
    intro a b ha hb hne heq
    apply hne
    have ha2 := List.mem_filter.mp ha
    have hb2 := List.mem_filter.mp hb
    have ha3 := List.mem_filter.mp ha2.1
    have hb3 := List.mem_filter.mp hb2.1
    refine hgit a b ha3.1 hb3.1 (by simpa using ha2.2) (by simpa using hb2.2) ?_ ?_ heq
    · have hka : repoKeyOf a = some k := by simpa using ha3.2
      have hkb : repoKeyOf b = some k := by simpa using hb3.2
      rw [hka, hkb]
    · have hka : repoKeyOf a = some k := by simpa using ha3.2
      rw [hka]
      simp
  exact List.pairwise_map.mpr hpw

/-- C4 amended: for two permutations of the same distinct raw records, the
browser aggregation yields the same multiset of aggregate signatures (id,
span, member multiset) with no further condition, and the repository
aggregation does so provided git records sharing a repository-day group
never share a start timestamp (stated as: equal-start same-group git
records are equal, which under distinctness forces distinct starts).  The
ordering of members inside an aggregate, and on git start-ties even the
id and span, are NOT input-order independent — see the counterexample. -/
theorem C4_amended (l₁ l₂ : List StoredEvent) (orgs : List String)
    (hperm : l₁.Perm l₂)
    (hnd : l₁.Nodup) :
    (((aggregateBrowserEvents l₁ orgs).map aggregateSig).Perm
      ((aggregateBrowserEvents l₂ orgs).map aggregateSig)) ∧
    ((∀ e₁ e₂, e₁ ∈ l₁ → e₂ ∈ l₁ → e₁.event_type = "git" → e₂.event_type = "git" →
      repoKeyOf e₁ = repoKeyOf e₂ → repoKeyOf e₁ ≠ none →
      e₁.start_date = e₂.start_date → e₁ = e₂) →
      ((aggregateRepositoryEvents l₁).1.map aggregateSig).Perm
        ((aggregateRepositoryEvents l₂).1.map aggregateSig)) := by
  constructor
  case right =>
    -- repository aggregates, under the distinct-git-starts premise
    intro hgit
    have hout : ∀ l : List StoredEvent, (aggregateRepositoryEvents l).1.map aggregateSig =
        (groupKeys repoKeyOf l).map fun k =>
          aggregateSig (mkRepoAggregate k (l.filter fun x => repoKeyOf x == some k)) := by
      intro l
      show ((buildGroups repoKeyOf l).map fun kv => mkRepoAggregate kv.1 kv.2).map
        aggregateSig = _
      rw [buildGroups_eq, List.map_map, List.map_map]
      rfl
    rw [hout l₁, hout l₂]
    have hcongr : ((groupKeys repoKeyOf l₁).map fun k =>
        aggregateSig (mkRepoAggregate k (l₁.filter fun x => repoKeyOf x == some k))) =
        (groupKeys repoKeyOf l₁).map fun k =>
          aggregateSig (mkRepoAggregate k (l₂.filter fun x => repoKeyOf x == some k)) := by
      apply List.map_congr_left
      intro k _
      refine repoSig_congr k (hperm.filter _) ?_
      refine sortByStart_eq_of_perm ((hperm.filter _).filter _) ?_
      exact gitStarts_nodup l₁ k hnd hgit
    rw [hcongr]
    exact (groupKeys_perm hperm).map _
  case left =>
    -- browser aggregates, unconditionally
    have hout : ∀ l : List StoredEvent, (aggregateBrowserEvents l orgs).map aggregateSig =
        ((groupKeys (browserKeyOf orgs) l).filter fun k =>
          !(l.filter fun x => browserKeyOf orgs x == some k).isEmpty).map fun k =>
            aggregateSig (mkBrowserAggregate k
              (l.filter fun x => browserKeyOf orgs x == some k)) := by
      intro l
      rw [aggregateBrowserEvents_eq, buildGroups_eq, List.filter_map, List.map_map,
        List.map_map]
      rfl
    rw [hout l₁, hout l₂]
    have hfe : ∀ k, (l₁.filter fun x => browserKeyOf orgs x == some k).isEmpty =
        (l₂.filter fun x => browserKeyOf orgs x == some k).isEmpty := by
      intro k
      have hlen := (hperm.filter (fun x => browserKeyOf orgs x == some k)).length_eq
      by_cases h1 : (l₁.filter fun x => browserKeyOf orgs x == some k).isEmpty = true
      · have h2 : (l₂.filter fun x => browserKeyOf orgs x == some k).isEmpty = true := by
          rw [List.isEmpty_iff_length_eq_zero] at h1 ⊢
          omega
        rw [h1, h2]
      · have h2 : ¬(l₂.filter fun x => browserKeyOf orgs x == some k).isEmpty = true := by
          rw [List.isEmpty_iff_length_eq_zero] at h1 ⊢
          omega
        rw [Bool.not_eq_true] at h1 h2
        rw [h1, h2]
    have hfilter : ((groupKeys (browserKeyOf orgs) l₁).filter fun k =>
        !(l₁.filter fun x => browserKeyOf orgs x == some k).isEmpty) =
        (groupKeys (browserKeyOf orgs) l₁).filter fun k =>
          !(l₂.filter fun x => browserKeyOf orgs x == some k).isEmpty := by
      apply List.filter_congr
      intro k _
      rw [hfe k]
    rw [hfilter]
    have hcongr : (((groupKeys (browserKeyOf orgs) l₁).filter fun k =>
        !(l₂.filter fun x => browserKeyOf orgs x == some k).isEmpty).map fun k =>
          aggregateSig (mkBrowserAggregate k
            (l₁.filter fun x => browserKeyOf orgs x == some k))) =
        ((groupKeys (browserKeyOf orgs) l₁).filter fun k =>
          !(l₂.filter fun x => browserKeyOf orgs x == some k).isEmpty).map fun k =>
            aggregateSig (mkBrowserAggregate k
              (l₂.filter fun x => browserKeyOf orgs x == some k)) := by
      apply List.map_congr_left
      intro k _
      exact browserSig_congr k (hperm.filter _)
    rw [hcongr]
    exact ((groupKeys_perm hperm).filter _).map _

/-- Twin Google-Docs visits sharing the same start timestamp. -/
def googleVisitTwin1 : StoredEvent :=
  mkStored 11 "browser_history" 50400000 50460000
    (some (mkBrowserTSD "https://docs.google.com/document/d/abc/edit" "docs.google.com"
      (some "Design") none))

/-- Second twin, distinct id only. -/
def googleVisitTwin2 : StoredEvent := { googleVisitTwin1 with id := 12 }

/-- A commit and a push on the same repository with identical timestamps. -/
def commitTie : StoredEvent :=
  mkStored 13 "git" 36000000 36300000 (some (mkGitTSD "r1" "widget" "commit" (some "acme/widget")))

/-- The push twin of `commitTie`. -/
def pushTie : StoredEvent :=
  mkStored 14 "git" 36000000 36300000 (some (mkGitTSD "r1" "widget" "push" (some "acme/widget")))

/-- C4 counterexample: permuting the input changes the result.  Two visits
with equal start timestamps keep their INPUT order inside the aggregate
(the sort has no id tie-break), so the member ordering differs between the
two permutations; and with a commit and a push at the same instant, which
one counts as "first" flips with the input order, changing the aggregate's
id and span. -/
theorem C4_counterexample :
    ([googleVisitTwin1, googleVisitTwin2].Perm [googleVisitTwin2, googleVisitTwin1] ∧
      ((aggregateBrowserEvents [googleVisitTwin1, googleVisitTwin2] []).map
        fun a => a.activities) ≠
        ((aggregateBrowserEvents [googleVisitTwin2, googleVisitTwin1] []).map
          fun a => a.activities)) ∧
    ([commitTie, pushTie].Perm [pushTie, commitTie] ∧
      ((aggregateRepositoryEvents [commitTie, pushTie]).1.map
        fun a => (a.id, a.start_date, a.end_date)) ≠
        ((aggregateRepositoryEvents [pushTie, commitTie]).1.map
          fun a => (a.id, a.start_date, a.end_date))) :=
  ⟨⟨by decide, by decide⟩, ⟨by decide, by decide⟩⟩

/-- C4 witness: the amended determinism applied to a two-record input and
its reversal — the browser half directly, and the repository half after
discharging its distinct-git-starts premise (the single git record makes
it vacuous). -/
theorem C4_witness :
    (((aggregateBrowserEvents [commitTenEvent, googleDocVisit] []).map aggregateSig).Perm
      ((aggregateBrowserEvents [googleDocVisit, commitTenEvent] []).map aggregateSig)) ∧
    (((aggregateRepositoryEvents [commitTenEvent, googleDocVisit]).1.map aggregateSig).Perm
      ((aggregateRepositoryEvents [googleDocVisit, commitTenEvent]).1.map aggregateSig)) := by
  have h := C4_amended [commitTenEvent, googleDocVisit] [googleDocVisit, commitTenEvent] []
    (by decide) (by decide)
  refine ⟨h.1, h.2 ?_⟩
  intro e₁ e₂ h₁ h₂ hg₁ hg₂ _ _ _
  have he₁ : e₁ = commitTenEvent ∨ e₁ = googleDocVisit := by simpa using h₁
  have he₂ : e₂ = commitTenEvent ∨ e₂ = googleDocVisit := by simpa using h₂
  rcases he₁ with rfl | rfl
  · rcases he₂ with rfl | rfl
    · rfl
    · exact absurd hg₂ (by decide)
  · exact absurd hg₁ (by decide)
